import Mathlib

/-!
Verification development for the yaos kernel (RISC-V teaching OS).

The Lean definitions below are a shallow embedding of the Rust sources:
  * `src/kernel/src/io/stdin_buf.rs`        (stdin buffer, byte push/pop)
  * `src/kernel/src/processes/scheduler.rs` (scheduler, wait, kill)
  * `src/kernel/src/syscalls/handler.rs`    (syscall handlers and dispatch wrapper)
  * `src/src/kernel/src/memory/heap.rs`     (free-list kernel heap)
Machine integers are modelled as `Nat` (sizes/addresses never overflow in the
scenarios of interest), mutable state as explicit state passing, and fallible
or diverging code (failed assertions, spinlock deadlock, SBI shutdown) as
`Option`/explicit outcome constructors.  Components of the repository whose
definitions are not part of the sources (process table, process record,
page-table walker, page allocator, syscall dispatch glue) are modelled from
the specification document; each such definition carries a doc comment
starting with `Modelled from the spec:`.
-/

namespace Yaos

/-- 4 KiB pages (sv39). -/
def PAGE_SIZE : Nat := 4096

abbrev Pid := Nat

/-- The reserved sentinel pid of the dummy process (pid 0 is never a user pid). -/
def NEVER_PID : Pid := 0

/-- Process states, from the state machine of the process module. -/
inductive ProcState where
  | Runnable
  | Running
  | Waiting
  | WaitingForInput
  | Zombie
  deriving DecidableEq, Repr

/-- Modelled from the spec: the `Process` record of `processes/process.rs`
(absent from the sources).  The saved trap frame is 32 integer register
slots; slot 10 is `a0`, the syscall return register.  Fields not needed by
any claim (name, address space contents, sockets) are omitted. -/
structure Process where
  pid : Pid
  state : ProcState
  pc : Nat
  inKernelMode : Bool
  trapFrame : List Nat
  notifyOnDie : List Pid
  deriving DecidableEq, Repr

/-- Modelled from the spec: `Process::resume_on_syscall(byte)` — deposit the
delivered byte into the saved trap frame's `a0` slot and mark Runnable. -/
def Process.resumeOnSyscall (p : Process) (byte : Nat) : Process :=
  { p with trapFrame := p.trapFrame.set 10 byte, state := ProcState.Runnable }

/-- Modelled from the spec: `Process::set_syscall_return_code` writes the
pending syscall return value into the saved trap frame's `a0` slot. -/
def Process.setSyscallReturnCode (p : Process) (v : Nat) : Process :=
  { p with trapFrame := p.trapFrame.set 10 v }

/-- `Process::add_notify_on_die` — record a pid to wake on termination. -/
def Process.addNotifyOnDie (p : Process) (pid : Pid) : Process :=
  { p with notifyOnDie := pid :: p.notifyOnDie }

/-- Which root page table `satp` currently points at. -/
inductive PageTableRef where
  | kernel
  | proc (pid : Pid)
  deriving DecidableEq, Repr

/-- The machine timer: armed with a deadline (milliseconds) or disabled. -/
inductive TimerState where
  | armed (ms : Nat)
  | disabled
  deriving DecidableEq, Repr

/-- The per-hart machine state visible to the scheduler: the process table
(`procs` plus the `dummy` placeholder, modelled from the spec since
`process_table.rs` is absent), the current pid (`NEVER_PID` when the dummy
is current), and the CPU state the scheduler reads and writes (active trap
frame, `sepc`, the return-mode flag, the active page table, the timer and
the scratch CSR). -/
structure Machine where
  procs : List Process
  dummy : Process
  current : Pid
  trapFrame : List Nat
  sepc : Nat
  retKernelMode : Bool
  activePageTable : PageTableRef
  timer : TimerState
  sscratchKernel : Bool
  deriving DecidableEq, Repr

/-- Modelled from the spec: `ProcessTable::get_process` — pid lookup. -/
def Machine.getProcess (m : Machine) (pid : Pid) : Option Process :=
  m.procs.find? (fun p => p.pid == pid)

/-- Update the process stored under `pid` (no-op when the pid is dead,
matching "resolving a pid that no longer exists is a benign no-op"). -/
def Machine.updateProcess (m : Machine) (pid : Pid) (f : Process → Process) : Machine :=
  { m with procs := m.procs.map (fun p => if p.pid = pid then f p else p) }

/-- The process the scheduler's `current_process` reference designates. -/
def Machine.currentProcess (m : Machine) : Process :=
  if m.current = NEVER_PID then m.dummy else (m.getProcess m.current).getD m.dummy

/-- Apply `f` to the current process (the dummy when no real process runs). -/
def Machine.updateCurrent (m : Machine) (f : Process → Process) : Machine :=
  if m.current = NEVER_PID then { m with dummy := f m.dummy }
  else m.updateProcess m.current f

/-- Address of the `wfi` idle loop (`cpu::wfi_loop`), a fixed kernel symbol. -/
def wfiLoopAddr : Nat := 0x80004242

/-- Basic process-table invariants: pids are unique, the dummy carries the
sentinel pid, the current pid is either the sentinel or live, and no table
entry uses the sentinel pid. -/
def Machine.wf (m : Machine) : Prop :=
  (m.procs.map Process.pid).Nodup ∧
  m.dummy.pid = NEVER_PID ∧
  (m.current = NEVER_PID ∨ (m.getProcess m.current).isSome) ∧
  NEVER_PID ∉ m.procs.map Process.pid

instance (m : Machine) : Decidable m.wf := by
  unfold Machine.wf; infer_instance

/-- `Scheduler::queue_current_process_back`: save `sepc`, the mode flag and
the hardware trap frame into the (old) current process, make the dummy
current, and hand back the old pid. -/
def Machine.queueCurrentProcessBack (m : Machine) : Machine × Pid :=
  ({ m.updateCurrent (fun p =>
      { p with pc := m.sepc, inKernelMode := m.retKernelMode, trapFrame := m.trapFrame }) with
     current := NEVER_PID },
   m.currentProcess.pid)

/-- The process with the smallest pid in a list. -/
def minByPid : List Process → Option Process
  | [] => none
  | p :: rest =>
    match minByPid rest with
    | none => some p
    | some q => if p.pid ≤ q.pid then some p else some q

/-- Modelled from the spec: `ProcessTable::next_runnable(after)` — among
Runnable entries, the smallest pid strictly greater than `after`, else wrap
to the smallest Runnable pid overall; the dummy is never selectable. -/
def nextRunnable (procs : List Process) (after : Pid) : Option Process :=
  match minByPid ((procs.filter (fun p => p.state == ProcState.Runnable)).filter
      (fun p => after < p.pid)) with
  | some p => some p
  | none => minByPid (procs.filter (fun p => p.state == ProcState.Runnable))

/-- Outcome of `Scheduler::schedule`: a process was installed, the hart
went idle, or the process table was empty and the system shut down via SBI
(`qemu_exit::exit_success`, which never returns). -/
inductive ScheduleResult where
  | installed (m : Machine)
  | idle (m : Machine)
  | shutdown
  deriving DecidableEq, Repr

/-- `Scheduler::schedule` together with `prepare_next_process`
(src/kernel/src/processes/scheduler.rs): queue the current process back;
shut down when the table is empty; otherwise install the next Runnable
process (write its trap frame, `sepc`, mode flag, activate its page table,
mark it Running per the spec's process-table contract, arm the timer for
10 ms) or, when none is Runnable, activate the kernel page table, disable
the timer, point `sepc` at the `wfi` loop and arrange the return to
supervisor mode with the kernel trap frame in `sscratch`. -/
def Machine.schedule (m : Machine) : ScheduleResult :=
  if (m.queueCurrentProcessBack.1).procs.isEmpty then ScheduleResult.shutdown
  else
    match nextRunnable (m.queueCurrentProcessBack.1).procs m.queueCurrentProcessBack.2 with
    | some p =>
      ScheduleResult.installed
        { m.queueCurrentProcessBack.1 with
          trapFrame := p.trapFrame
          sepc := p.pc
          retKernelMode := p.inKernelMode
          activePageTable := PageTableRef.proc p.pid
          procs := (m.queueCurrentProcessBack.1).procs.map (fun q =>
            if q.pid = p.pid then { q with state := ProcState.Running } else q)
          current := p.pid
          timer := TimerState.armed 10 }
    | none =>
      ScheduleResult.idle
        { m.queueCurrentProcessBack.1 with
          activePageTable := PageTableRef.kernel
          timer := TimerState.disabled
          sepc := wfiLoopAddr
          retKernelMode := true
          sscratchKernel := true }

/-- `Scheduler::kill_current_process` plus the spec-modelled
`ProcessTable::kill`: swap the dummy in, activate the kernel page table,
remove the victim, and wake every pid in its `notify_on_die` set that is
still alive (mark Runnable, write syscall return 0). -/
def Machine.killCurrentProcess (m : Machine) : Machine :=
  let victim := m.currentProcess
  let m1 := { m with current := NEVER_PID, activePageTable := PageTableRef.kernel }
  let m2 := { m1 with procs := m1.procs.filter (fun p => p.pid ≠ victim.pid) }
  victim.notifyOnDie.foldl
    (fun acc q => acc.updateProcess q
      (fun p => { p with state := ProcState.Runnable, trapFrame := p.trapFrame.set 10 0 }))
    m2

/-- The update `let_current_process_wait_for` applies to the caller:
`set_state(Waiting)` and `set_syscall_return_code(0)`. -/
def waitingUpdate (q : Process) : Process :=
  { q with state := ProcState.Waiting, trapFrame := q.trapFrame.set 10 0 }

/-- `Scheduler::let_current_process_wait_for(pid)`.  The source first looks
the target up, then locks the current process, sets it Waiting with return
code 0, and finally locks the target to record the notification.  When the
argument is the caller's own pid both locks are the same non-reentrant
spinlock mutex, so the second acquisition spins forever; that divergence is
modelled as `none`. -/
def Machine.letCurrentProcessWaitFor (m : Machine) (pid : Pid) : Option (Bool × Machine) :=
  match m.getProcess pid with
  | none => some (false, m)
  | some _ =>
    if pid = m.currentProcess.pid then none
    else
      some (true,
        (m.updateCurrent waitingUpdate).updateProcess pid
          (fun p => p.addNotifyOnDie m.currentProcess.pid))

inductive SysWaitError where
  | invalidPid
  deriving DecidableEq, Repr

/-- `SyscallHandler::sys_wait` (src/kernel/src/syscalls/handler.rs):
`Ok(())` when `let_current_process_wait_for` succeeded, otherwise
`Err(InvalidPid)`; `none` when the callee never returns. -/
def Machine.sysWait (m : Machine) (pid : Pid) : Option (Except SysWaitError Unit × Machine) :=
  (m.letCurrentProcessWaitFor pid).map (fun r =>
    (if r.1 then Except.ok () else Except.error SysWaitError.invalidPid, r.2))

/-- The stdin buffer (src/kernel/src/io/stdin_buf.rs): a FIFO of bytes not
yet consumed plus the set of pids blocked in `read_input_wait` (a
`BTreeSet`, modelled as a sorted duplicate-free list). -/
structure StdinBuffer where
  data : List Nat
  wakeupQueue : List Pid
  deriving DecidableEq, Repr

/-- Ordered insertion into the wakeup set (`BTreeSet::insert`). -/
def insertPidSorted (pid : Pid) : List Pid → List Pid
  | [] => [pid]
  | q :: rest =>
    if pid < q then pid :: q :: rest
    else if pid = q then q :: rest
    else q :: insertPidSorted pid rest

/-- `StdinBuffer::register_wakeup`. -/
def StdinBuffer.registerWakeup (s : StdinBuffer) (pid : Pid) : StdinBuffer :=
  { s with wakeupQueue := insertPidSorted pid s.wakeupQueue }

/-- `StdinBuffer::pop` — pop the oldest byte from the FIFO. -/
def StdinBuffer.pop (s : StdinBuffer) : Option Nat × StdinBuffer :=
  (s.data.head?, { s with data := s.data.tail })

/-- Modelled from the spec: `Scheduler::is_current_process_energy_saver` —
whether the hart is idling in the dummy placeholder process. -/
def Machine.isCurrentProcessEnergySaver (m : Machine) : Bool :=
  m.currentProcess.pid == NEVER_PID

/-- Combined kernel state used by the stdin path and syscall dispatch: the
machine, the stdin buffer, the embedded program table (names), the next
fresh pid, the set of open UDP ports and a bump pointer for `mmap`. -/
structure Kernel where
  mach : Machine
  stdin : StdinBuffer
  programs : List String
  nextPid : Pid
  openPorts : List Nat
  mmapNext : Nat
  deriving DecidableEq, Repr

/-- One delivery pass of `StdinBuffer::push`: for every registered pid that
is still in the process table, `resume_on_syscall(byte)`. -/
def deliverToWaiters (byte : Nat) (queue : List Pid) (m : Machine) : Machine :=
  queue.foldl
    (fun acc pid =>
      if (acc.getProcess pid).isSome then
        acc.updateProcess pid (fun p => p.resumeOnSyscall byte)
      else acc)
    m

/-- `StdinBuffer::push` (src/kernel/src/io/stdin_buf.rs): deliver the byte
to every registered waiter still alive; reschedule when waiters were
registered and the hart idles in the dummy; clear the wakeup set; when
waiters were registered re-enable a disabled timer and drop the byte,
otherwise append it to the FIFO.  `none` models the (unreachable in a live
system) case in which the embedded reschedule finds an empty process table
and shuts the system down. -/
def Kernel.pushStdin (k : Kernel) (byte : Nat) : Option Kernel :=
  let notified := !k.stdin.wakeupQueue.isEmpty
  let mach1 := deliverToWaiters byte k.stdin.wakeupQueue k.mach
  let mach2 :=
    if notified && mach1.isCurrentProcessEnergySaver then
      match mach1.schedule with
      | ScheduleResult.installed m => some m
      | ScheduleResult.idle m => some m
      | ScheduleResult.shutdown => none
    else some mach1
  mach2.map (fun mach3 =>
    let stdin1 := { k.stdin with wakeupQueue := [] }
    if notified then
      { k with
        mach := if mach3.timer = TimerState.disabled
                then { mach3 with timer := TimerState.armed 0 } else mach3
        stdin := stdin1 }
    else
      { k with mach := mach3, stdin := { stdin1 with data := stdin1.data ++ [byte] } })

/-- Push a whole sequence of bytes (UART delivery order). -/
def Kernel.pushAll (k : Kernel) : List Nat → Option Kernel
  | [] => some k
  | b :: rest =>
    match k.pushStdin b with
    | some k1 => k1.pushAll rest
    | none => none

/-- Modelled from the spec: `Process::from_elf` followed by
`ProcessTable::add_process` — a freshly parsed ELF becomes a Runnable
process with a fresh pid appended to the table. -/
def newProcess (pid : Pid) : Process :=
  { pid := pid
    state := ProcState.Runnable
    pc := 0
    inKernelMode := false
    trapFrame := List.replicate 32 0
    notifyOnDie := [] }

/-- `Scheduler::start_program`: linear search of the embedded program
table; on a hit, insert a fresh process and hand back its pid. -/
def Kernel.startProgram (k : Kernel) (name : String) : Option Pid × Kernel :=
  if k.programs.contains name then
    (some k.nextPid,
     { k with
       mach := { k.mach with procs := k.mach.procs ++ [newProcess k.nextPid] }
       nextPid := k.nextPid + 1 })
  else (none, k)

/-- The syscall surface of the kernel.  Reference-typed arguments arrive
through the userspace-pointer validator, which is settled separately
(claim C1); here `ptrOk` records whether that validation succeeded. -/
inductive Syscall where
  | printPrograms
  | sysPanic
  | writeChar (c : Nat)
  | readInput
  | readInputWait
  | exit (status : Int)
  | execute (name : String) (ptrOk : Bool)
  | wait (pid : Pid)
  | mmapPages (n : Nat)
  | openUdpSocket (port : Nat)
  | writeUdpSocket (desc : Nat) (buf : List Nat) (ptrOk : Bool)
  | readUdpSocket (desc : Nat) (len : Nat) (ptrOk : Bool)
  deriving DecidableEq, Repr

/-- Outcome of `handle_syscall` (src/kernel/src/syscalls/handler.rs):
either the kernel panicked (`sys_panic`), or the handler never returned
(the self-wait spinlock deadlock), or dispatch completed with an optional
syscall status — `none` exactly when the current process exited, so the
trap path must yield to the scheduler instead of writing a return value. -/
inductive DispatchOutcome where
  | panicked
  | hung
  | completed (ret : Option Int) (k : Kernel)
  deriving DecidableEq, Repr

/-- `SyscallHandler::dispatch` composed with `handle_syscall`: run the
handler for the decoded call; report `completed none` exactly when
`process_exit` was set (only `sys_exit` sets it).  Error returns are
encoded as negative numbers, successes as non-negative numbers, matching
the shared interface crate's convention; UDP transport internals are out
of the core's scope and are modelled from the spec as completing with a
typed result. -/
def Kernel.handleSyscall (k : Kernel) : Syscall → DispatchOutcome
  | Syscall.printPrograms => DispatchOutcome.completed (some 0) k
  | Syscall.sysPanic => DispatchOutcome.panicked
  | Syscall.writeChar _ => DispatchOutcome.completed (some 0) k
  | Syscall.readInput =>
    DispatchOutcome.completed
      (some (match k.stdin.pop.1 with | some b => Int.ofNat b | none => -1))
      { k with stdin := k.stdin.pop.2 }
  | Syscall.readInputWait =>
    match k.stdin.pop.1 with
    | some b =>
      DispatchOutcome.completed (some (Int.ofNat b)) { k with stdin := k.stdin.pop.2 }
    | none =>
      DispatchOutcome.completed (some 0)
        { k with
          stdin := k.stdin.registerWakeup k.mach.currentProcess.pid
          mach := k.mach.updateCurrent
            (fun p => { p with state := ProcState.WaitingForInput }) }
  | Syscall.exit _ =>
    DispatchOutcome.completed none { k with mach := k.mach.killCurrentProcess }
  | Syscall.execute name ptrOk =>
    if ptrOk then
      match k.startProgram name with
      | (some pid, k1) => DispatchOutcome.completed (some (Int.ofNat pid)) k1
      | (none, k1) => DispatchOutcome.completed (some (-2)) k1
    else DispatchOutcome.completed (some (-1)) k
  | Syscall.wait pid =>
    match k.mach.sysWait pid with
    | none => DispatchOutcome.hung
    | some (Except.ok _, m1) => DispatchOutcome.completed (some 0) { k with mach := m1 }
    | some (Except.error _, m1) => DispatchOutcome.completed (some (-3)) { k with mach := m1 }
  | Syscall.mmapPages n =>
    DispatchOutcome.completed (some (Int.ofNat (k.mmapNext * PAGE_SIZE)))
      { k with mmapNext := k.mmapNext + n }
  | Syscall.openUdpSocket port =>
    if k.openPorts.contains port then DispatchOutcome.completed (some (-4)) k
    else
      DispatchOutcome.completed (some (Int.ofNat k.openPorts.length))
        { k with openPorts := k.openPorts ++ [port] }
  | Syscall.writeUdpSocket _ buf ptrOk =>
    if ptrOk then DispatchOutcome.completed (some (Int.ofNat buf.length)) k
    else DispatchOutcome.completed (some (-1)) k
  | Syscall.readUdpSocket _ _ ptrOk =>
    if ptrOk then DispatchOutcome.completed (some 0) k
    else DispatchOutcome.completed (some (-1)) k

/-! ### Userspace pointer validation (sv39 page tables) -/

/-- A leaf page-table entry: the V/R/W/X/U permission bits and the
physical page number. -/
structure PTE where
  valid : Bool
  read : Bool
  write : Bool
  exec : Bool
  user : Bool
  ppn : Nat
  deriving DecidableEq, Repr

/-- Modelled from the spec: a process page table, flattened to its leaf
mapping virtual page number → entry (the sv39 tree walk of
`memory/page_tables.rs` is absent from the sources). -/
def PageTable := List (Nat × PTE)

/-- Leaf lookup for a virtual page number. -/
def lookupPTE (pt : PageTable) (vpn : Nat) : Option PTE :=
  (pt.find? (fun e => e.1 == vpn)).map (fun e => e.2)

/-- A (possibly fat) userspace pointer: start address and length in bytes. -/
structure FatPointer where
  addr : Nat
  len : Nat
  deriving DecidableEq, Repr

/-- The virtual page numbers a byte range touches. -/
def pagesTouched (addr len : Nat) : List Nat :=
  if len = 0 then []
  else List.range' (addr / PAGE_SIZE) ((addr + len - 1) / PAGE_SIZE - addr / PAGE_SIZE + 1)

/-- Modelled from the spec: `is_valid_userspace_ptr(ptr, len)` — for every
page the range touches, requires V=1 and U=1, and W=1 if write mode. -/
def isValidUserspacePtr (pt : PageTable) (p : FatPointer) (write : Bool) : Bool :=
  (pagesTouched p.addr p.len).all (fun vpn =>
    match lookupPTE pt vpn with
    | some e => e.valid && e.user && (!write || e.write)
    | none => false)

/-- Modelled from the spec:
`translate_userspace_address_to_physical_address` — like translate, but
requiring U=1; `none` when the page is unmapped. -/
def translateUserspaceAddressToPhysicalAddress (pt : PageTable) (p : FatPointer) :
    Option FatPointer :=
  match lookupPTE pt (p.addr / PAGE_SIZE) with
  | some e =>
    if e.valid && e.user then
      some { addr := e.ppn * PAGE_SIZE + p.addr % PAGE_SIZE, len := p.len }
    else none
  | none => none

/-- `SyscallHandler::validate_and_translate_pointer`
(src/kernel/src/syscalls/handler.rs lines 169-183): the single validator
used for every reference-typed argument; it calls
`is_valid_userspace_ptr(ptr, true)` — write mode unconditionally — and then
translates the pointer into the kernel's view. -/
def validateAndTranslatePointer (pt : PageTable) (p : FatPointer) : Option FatPointer :=
  if !(isValidUserspacePtr pt p true) then none
  else translateUserspaceAddressToPhysicalAddress pt p

/-! ### The kernel heap (src/src/kernel/src/memory/heap.rs) -/

/-- `FreeBlock::METADATA_SIZE` = `offset_of!(FreeBlock, data)`: the `next`
link plus the size word, 16 bytes. -/
def METADATA_SIZE : Nat := 16

/-- `FreeBlock::DATA_ALIGNMENT`. -/
def DATA_ALIGNMENT : Nat := 8

/-- `FreeBlock::MINIMUM_SIZE` = metadata + one alignment unit. -/
def MINIMUM_SIZE : Nat := METADATA_SIZE + DATA_ALIGNMENT

/-- `klibc::util::align_up` (round `v` up to a multiple of `a`). -/
def alignUp (v a : Nat) : Nat := ((v + a - 1) / a) * a

/-- `klibc::util::minimum_amount_of_pages` (`ceil(size / PAGE_SIZE)`). -/
def minimumAmountOfPages (size : Nat) : Nat := (size + PAGE_SIZE - 1) / PAGE_SIZE

/-- `core::alloc::Layout`: requested size and alignment. -/
structure Layout where
  size : Nat
  align : Nat
  deriving DecidableEq, Repr

/-- `AlignedSizeWithMetadata::from_layout`: the total block size for a
layout — `align_up(layout.size() + METADATA_SIZE, DATA_ALIGNMENT)`. -/
def sizeFromLayout (l : Layout) : Nat :=
  alignUp (l.size + METADATA_SIZE) DATA_ALIGNMENT

/-- A free block as it sits in memory: start address of the block header
and its total size (metadata included).  The data region starts at
`addr + METADATA_SIZE`. -/
structure Block where
  addr : Nat
  size : Nat
  deriving DecidableEq, Repr

/-- Modelled from the spec: the page allocator's per-page state byte —
Free, Used, or Last (final page of a contiguous allocation). -/
inductive PageState where
  | free
  | used
  | last
  deriving DecidableEq, Repr

/-- Modelled from the spec: the page allocator — the base address of page 0
and the per-page metadata array of the usable region. -/
structure PageAllocState where
  base : Nat
  pages : List PageState
  deriving DecidableEq, Repr

/-- Whether `n` consecutive Free pages start at the head of the list. -/
def canPlace (n : Nat) (l : List PageState) : Bool :=
  decide (n ≤ l.length) && (l.take n).all (fun s => s == PageState.free)

/-- First-fit search for `n` consecutive Free pages. -/
def firstFit (n : Nat) : List PageState → Option Nat
  | [] => if n = 0 then some 0 else none
  | s :: rest =>
    if canPlace n (s :: rest) then some 0
    else (firstFit n rest).map (· + 1)

/-- Mark pages `[i, i+n-1)` Used and page `i+n-1` Last. -/
def markRange : List PageState → Nat → Nat → List PageState
  | [], _, _ => []
  | s :: rest, 0, 0 => s :: rest
  | _ :: rest, 0, 1 => PageState.last :: rest
  | _ :: rest, 0, n + 2 => PageState.used :: markRange rest 0 (n + 1)
  | s :: rest, i + 1, n => s :: markRange rest i n

/-- Modelled from the spec: `PageAllocator::zalloc(n)` — first-fit search
for n consecutive Free pages; on success mark them Used with the final one
Last and return the page address. -/
def zallocPages (st : PageAllocState) (n : Nat) : Option (Nat × PageAllocState) :=
  (firstFit n st.pages).map (fun i =>
    (st.base + i * PAGE_SIZE, { st with pages := markRange st.pages i n }))

/-- The heap: the free list hanging off the genesis block, the sizes
recorded in the headers of the blocks currently handed out (what
`FreeBlock::from_data_ptr` reads back on `dealloc`), and the backing page
allocator.  Handed-out blocks always carry a null `next` link: `alloc`
detaches the block before returning it. -/
structure HeapState where
  freeList : List Block
  allocSizes : Nat → Option Nat
  pageAlloc : PageAllocState

/-- Record (or clear) the header size stored at a block address. -/
def setSize (f : Nat → Option Nat) (a : Nat) (v : Option Nat) : Nat → Option Nat :=
  fun x => if x = a then v else f x

/-- `Heap::find_and_remove`: walk the free list and unlink the first block
whose size is at least the request. -/
def findAndRemove (requested : Nat) : List Block → Option (Block × List Block)
  | [] => none
  | b :: rest =>
    if requested ≤ b.size then some (b, rest)
    else (findAndRemove requested rest).map (fun pr => (pr.1, b :: pr.2))

/-- `Heap::split_if_necessary` with `FreeBlock::split`: when the surplus
over the request is at least `MINIMUM_SIZE`, shrink the block to the
request and carve the tail into a new block starting at
`data_ptr + requested.data_size()` = `addr + requested`. -/
def splitIfNecessary (b : Block) (requested : Nat) : Block × Option Block :=
  if b.size - requested < MINIMUM_SIZE then (b, none)
  else ({ addr := b.addr, size := requested },
        some { addr := b.addr + requested, size := b.size - requested })

/-- `Heap::insert` of an optional split tail: the new block goes to the
head of the free list. -/
def insertOpt (tl : Option Block) (free : List Block) : List Block :=
  match tl with
  | some t => t :: free
  | none => free

/-- `Heap::alloc`: round the layout up; unlink the first fitting free
block, or get `ceil(total/PAGE_SIZE)` zeroed pages from the page allocator
and wrap them in a single block (null on failure); split if necessary,
pushing the tail onto the head of the free list; hand out the data
pointer. -/
def HeapState.alloc (s : HeapState) (l : Layout) : Option Nat × HeapState :=
  match findAndRemove (sizeFromLayout l) s.freeList with
  | some (b, rest) =>
    (some ((splitIfNecessary b (sizeFromLayout l)).1.addr + METADATA_SIZE),
     { s with
       freeList := insertOpt (splitIfNecessary b (sizeFromLayout l)).2 rest
       allocSizes :=
         setSize s.allocSizes (splitIfNecessary b (sizeFromLayout l)).1.addr
           (some (splitIfNecessary b (sizeFromLayout l)).1.size) })
  | none =>
    match zallocPages s.pageAlloc (minimumAmountOfPages (sizeFromLayout l)) with
    | none => (none, s)
    | some (addr, pa) =>
      (some ((splitIfNecessary
                { addr := addr, size := minimumAmountOfPages (sizeFromLayout l) * PAGE_SIZE }
                (sizeFromLayout l)).1.addr + METADATA_SIZE),
       { freeList :=
           insertOpt
             (splitIfNecessary
               { addr := addr, size := minimumAmountOfPages (sizeFromLayout l) * PAGE_SIZE }
               (sizeFromLayout l)).2 s.freeList
         allocSizes :=
           setSize s.allocSizes
             (splitIfNecessary
               { addr := addr, size := minimumAmountOfPages (sizeFromLayout l) * PAGE_SIZE }
               (sizeFromLayout l)).1.addr
             (some (splitIfNecessary
               { addr := addr, size := minimumAmountOfPages (sizeFromLayout l) * PAGE_SIZE }
               (sizeFromLayout l)).1.size)
         pageAlloc := pa })

/-- `Heap::dealloc`: recover the block header at `ptr - METADATA_SIZE`,
check the corruption assertions (`next == null`, which alloc guarantees for
every block it hands out, and `data_size ≥ layout.size()`), and push the
block onto the head of the free list.  `none` models an assertion failure
or a pointer the heap never handed out. -/
def HeapState.dealloc (s : HeapState) (ptr : Nat) (l : Layout) : Option HeapState :=
  match s.allocSizes (ptr - METADATA_SIZE) with
  | none => none
  | some t =>
    if l.size ≤ t - METADATA_SIZE then
      some { s with
             freeList := { addr := ptr - METADATA_SIZE, size := t } :: s.freeList
             allocSizes := setSize s.allocSizes (ptr - METADATA_SIZE) none }
    else none

/-- One alloc/dealloc round trip of a fixed layout. -/
def HeapState.cycle (s : HeapState) (l : Layout) : Option HeapState :=
  match s.alloc l with
  | (some p, s1) => s1.dealloc p l
  | (none, _) => none

/-- `n` alloc/dealloc round trips of a fixed layout. -/
def iterCycle (l : Layout) : Nat → HeapState → Option HeapState
  | 0, s => some s
  | n + 1, s =>
    match s.cycle l with
    | some s1 => iterCycle l n s1
    | none => none

/-- A fresh heap over a page allocator with `usablePages` free pages whose
page 0 sits at `base` (the heap unit test: 8 pages of backing memory, one
reserved for the metadata array, so 7 usable pages based at the first page
boundary). -/
def initHeap (usablePages : Nat) (base : Nat) : HeapState :=
  { freeList := []
    allocSizes := fun _ => none
    pageAlloc := { base := base, pages := List.replicate usablePages PageState.free } }

/-- Every address the heap works with stays 8-byte aligned: free-list
blocks, recorded handed-out blocks, and the page base. -/
def AlignedState (s : HeapState) : Prop :=
  (∀ b ∈ s.freeList, b.addr % 8 = 0) ∧
  (∀ a t, s.allocSizes a = some t → a % 8 = 0) ∧
  s.pageAlloc.base % 8 = 0

/-! ### Heap lemmas -/

theorem le_alignUp (v a : Nat) (ha : 0 < a) : v ≤ alignUp v a := by
  unfold alignUp
  have hdm := Nat.div_add_mod (v + a - 1) a
  have hlt : (v + a - 1) % a < a := Nat.mod_lt _ ha
  have hcm : (v + a - 1) / a * a = a * ((v + a - 1) / a) := Nat.mul_comm _ _
  omega

theorem alignUp_mod (v a : Nat) : alignUp v a % a = 0 := by
  unfold alignUp
  exact Nat.mul_mod_left _ _

theorem sizeFromLayout_lower (l : Layout) :
    l.size + METADATA_SIZE ≤ sizeFromLayout l := by
  unfold sizeFromLayout
  exact le_alignUp _ _ (by decide)

theorem sizeFromLayout_mod (l : Layout) : sizeFromLayout l % 8 = 0 := by
  unfold sizeFromLayout DATA_ALIGNMENT
  exact alignUp_mod _ _

theorem findAndRemove_none_iff (r : Nat) (l : List Block) :
    findAndRemove r l = none ↔ ∀ b ∈ l, b.size < r := by
  induction l with
  | nil => simp [findAndRemove]
  | cons b rest ih =>
    unfold findAndRemove
    by_cases hb : r ≤ b.size
    · rw [if_pos hb]
      constructor
      · intro h; cases h
      · intro h
        exact absurd (h b (by simp)) (by omega)
    · rw [if_neg hb]
      rw [Option.map_eq_none', ih]
      constructor
      · intro h b1 hmem
        rcases List.mem_cons.mp hmem with rfl | hx
        · omega
        · exact h b1 hx
      · intro h b1 hx
        exact h b1 (List.mem_cons_of_mem _ hx)

theorem findAndRemove_some (r : Nat) (l : List Block) (b : Block) (rest : List Block)
    (h : findAndRemove r l = some (b, rest)) :
    ∃ pre post, l = pre ++ b :: post ∧ rest = pre ++ post ∧
      r ≤ b.size ∧ ∀ x ∈ pre, x.size < r := by
  induction l generalizing b rest with
  | nil => simp [findAndRemove] at h
  | cons b0 rest0 ih =>
    unfold findAndRemove at h
    by_cases hb : r ≤ b0.size
    · rw [if_pos hb] at h
      rw [Option.some.injEq, Prod.mk.injEq] at h
      obtain ⟨rfl, rfl⟩ := h
      exact ⟨[], rest0, rfl, rfl, hb, by simp⟩
    · rw [if_neg hb] at h
      match hfr : findAndRemove r rest0 with
      | none => rw [hfr] at h; cases h
      | some (b1, rest1) =>
        rw [hfr] at h
        simp only [Option.map_some'] at h
        rw [Option.some.injEq, Prod.mk.injEq] at h
        obtain ⟨rfl, hrest⟩ := h
        obtain ⟨pre, post, hl, hr1, hsize, hpre⟩ := ih _ _ hfr
        refine ⟨b0 :: pre, post, ?_, ?_, hsize, ?_⟩
        · simp [hl]
        · rw [← hrest, hr1]; rfl
        · intro x hx
          rcases List.mem_cons.mp hx with rfl | hx2
          · omega
          · exact hpre x hx2

theorem requested_le_pages (r : Nat) :
    r ≤ minimumAmountOfPages r * PAGE_SIZE := by
  unfold minimumAmountOfPages PAGE_SIZE
  have hdm := Nat.div_add_mod (r + 4096 - 1) 4096
  have hlt : (r + 4096 - 1) % 4096 < 4096 := Nat.mod_lt _ (by decide)
  omega

theorem splitIfNecessary_keep (b : Block) (r : Nat) (h : b.size - r < MINIMUM_SIZE) :
    splitIfNecessary b r = (b, none) := by
  unfold splitIfNecessary
  rw [if_pos h]

theorem splitIfNecessary_cut (b : Block) (r : Nat) (h : ¬b.size - r < MINIMUM_SIZE) :
    splitIfNecessary b r =
      ({ addr := b.addr, size := r }, some { addr := b.addr + r, size := b.size - r }) := by
  unfold splitIfNecessary
  rw [if_neg h]

/-- Equation lemma: `alloc` when a free-list block fits. -/
theorem alloc_found (s : HeapState) (l : Layout) (b : Block) (rest : List Block)
    (hfr : findAndRemove (sizeFromLayout l) s.freeList = some (b, rest)) :
    s.alloc l =
      (some ((splitIfNecessary b (sizeFromLayout l)).1.addr + METADATA_SIZE),
       { s with
         freeList := insertOpt (splitIfNecessary b (sizeFromLayout l)).2 rest
         allocSizes :=
           setSize s.allocSizes (splitIfNecessary b (sizeFromLayout l)).1.addr
             (some (splitIfNecessary b (sizeFromLayout l)).1.size) }) := by
  unfold HeapState.alloc
  rw [hfr]

/-- Equation lemma: `alloc` when no free-list block fits but the page
allocator delivers. -/
theorem alloc_pages (s : HeapState) (l : Layout) (addr : Nat) (pa : PageAllocState)
    (hfr : findAndRemove (sizeFromLayout l) s.freeList = none)
    (hz : zallocPages s.pageAlloc (minimumAmountOfPages (sizeFromLayout l)) = some (addr, pa)) :
    s.alloc l =
      (some ((splitIfNecessary
               { addr := addr, size := minimumAmountOfPages (sizeFromLayout l) * PAGE_SIZE }
               (sizeFromLayout l)).1.addr + METADATA_SIZE),
       { freeList :=
           insertOpt
             (splitIfNecessary
               { addr := addr, size := minimumAmountOfPages (sizeFromLayout l) * PAGE_SIZE }
               (sizeFromLayout l)).2 s.freeList
         allocSizes :=
           setSize s.allocSizes
             (splitIfNecessary
               { addr := addr, size := minimumAmountOfPages (sizeFromLayout l) * PAGE_SIZE }
               (sizeFromLayout l)).1.addr
             (some (splitIfNecessary
               { addr := addr, size := minimumAmountOfPages (sizeFromLayout l) * PAGE_SIZE }
               (sizeFromLayout l)).1.size)
         pageAlloc := pa }) := by
  unfold HeapState.alloc
  rw [hfr, hz]

/-- Equation lemma: `alloc` returns null when neither source can supply. -/
theorem alloc_null (s : HeapState) (l : Layout)
    (hfr : findAndRemove (sizeFromLayout l) s.freeList = none)
    (hz : zallocPages s.pageAlloc (minimumAmountOfPages (sizeFromLayout l)) = none) :
    s.alloc l = (none, s) := by
  unfold HeapState.alloc
  rw [hfr, hz]

/-- Equation lemma: `dealloc` of a pointer whose header records `t` bytes,
enough for the layout. -/
theorem dealloc_known (s : HeapState) (ptr : Nat) (l : Layout) (t : Nat)
    (hs : s.allocSizes (ptr - METADATA_SIZE) = some t)
    (hl : l.size ≤ t - METADATA_SIZE) :
    s.dealloc ptr l =
      some { s with
             freeList := { addr := ptr - METADATA_SIZE, size := t } :: s.freeList
             allocSizes := setSize s.allocSizes (ptr - METADATA_SIZE) none } := by
  unfold HeapState.dealloc
  simp [hs, hl]

/-- Equation lemma: `dealloc` fails its size assertion. -/
theorem dealloc_small (s : HeapState) (ptr : Nat) (l : Layout) (t : Nat)
    (hs : s.allocSizes (ptr - METADATA_SIZE) = some t)
    (hl : ¬l.size ≤ t - METADATA_SIZE) :
    s.dealloc ptr l = none := by
  unfold HeapState.dealloc
  simp [hs, hl]

/-- What `alloc` hands out: the data pointer sits `METADATA_SIZE` past a
block header whose recorded total size is at least the rounded request and
exceeds it by less than `MINIMUM_SIZE`. -/
theorem alloc_some_spec (s : HeapState) (l : Layout) (p : Nat)
    (h : (s.alloc l).1 = some p) :
    ∃ a t, p = a + METADATA_SIZE ∧
      (s.alloc l).2.allocSizes a = some t ∧
      sizeFromLayout l ≤ t ∧ t - sizeFromLayout l < MINIMUM_SIZE := by
  rcases hfr : findAndRemove (sizeFromLayout l) s.freeList with _ | ⟨b, rest⟩
  · rcases hz : zallocPages s.pageAlloc (minimumAmountOfPages (sizeFromLayout l)) with
      _ | ⟨addr, pa⟩
    · rw [alloc_null s l hfr hz] at h
      cases h
    · rw [alloc_pages s l addr pa hfr hz] at h ⊢
      have hsize : sizeFromLayout l ≤ minimumAmountOfPages (sizeFromLayout l) * PAGE_SIZE :=
        requested_le_pages _
      by_cases hsplit :
          (Block.mk addr (minimumAmountOfPages (sizeFromLayout l) * PAGE_SIZE)).size -
            sizeFromLayout l < MINIMUM_SIZE
      · rw [splitIfNecessary_keep _ _ hsplit] at h ⊢
        simp only [Option.some.injEq] at h
        simp only at hsplit
        exact ⟨addr, _, by omega, by simp [setSize], hsize, hsplit⟩
      · rw [splitIfNecessary_cut _ _ hsplit] at h ⊢
        simp only [Option.some.injEq] at h
        refine ⟨addr, sizeFromLayout l, by omega, by simp [setSize], le_refl _, ?_⟩
        unfold MINIMUM_SIZE METADATA_SIZE DATA_ALIGNMENT
        omega
  · rw [alloc_found s l b rest hfr] at h ⊢
    obtain ⟨_, _, _, _, hsize, _⟩ := findAndRemove_some _ _ _ _ hfr
    by_cases hsplit : b.size - sizeFromLayout l < MINIMUM_SIZE
    · rw [splitIfNecessary_keep _ _ hsplit] at h ⊢
      simp only [Option.some.injEq] at h
      exact ⟨b.addr, b.size, by omega, by simp [setSize], hsize, hsplit⟩
    · rw [splitIfNecessary_cut _ _ hsplit] at h ⊢
      simp only [Option.some.injEq] at h
      refine ⟨b.addr, sizeFromLayout l, by omega, by simp [setSize], le_refl _, ?_⟩
      unfold MINIMUM_SIZE METADATA_SIZE DATA_ALIGNMENT
      omega

/-- A heap whose free list starts with a block that fits the layout with
surplus below `MINIMUM_SIZE` and whose header slot is vacant is a fixpoint
of the alloc/dealloc round trip. -/
theorem cycle_head_fix (a t : Nat) (fl : List Block) (g : Nat → Option Nat)
    (pa : PageAllocState) (l : Layout)
    (hr : sizeFromLayout l ≤ t) (hmin : t - sizeFromLayout l < MINIMUM_SIZE)
    (hg : g a = none) :
    HeapState.cycle ⟨{ addr := a, size := t } :: fl, g, pa⟩ l =
      some ⟨{ addr := a, size := t } :: fl, g, pa⟩ := by
  have hfr : findAndRemove (sizeFromLayout l) ({ addr := a, size := t } :: fl : List Block)
      = some ({ addr := a, size := t }, fl) := by
    simp [findAndRemove, hr]
  have halloc :=
    alloc_found ⟨{ addr := a, size := t } :: fl, g, pa⟩ l { addr := a, size := t } fl hfr
  rw [splitIfNecessary_keep { addr := a, size := t } (sizeFromLayout l) (by simpa using hmin)]
    at halloc
  unfold HeapState.cycle
  rw [halloc]
  dsimp only [insertOpt]
  have hs : (setSize g a (some t)) (a + METADATA_SIZE - METADATA_SIZE) = some t := by
    simp [setSize]
  have hl : l.size ≤ t - METADATA_SIZE := by
    have := sizeFromLayout_lower l
    unfold METADATA_SIZE at *
    omega
  rw [dealloc_known _ _ _ t hs hl]
  simp only [Option.some.injEq]
  have haddr : a + METADATA_SIZE - METADATA_SIZE = a := by omega
  rw [HeapState.mk.injEq]
  refine ⟨by simp [insertOpt, haddr], ?_, rfl⟩
  funext x
  by_cases hx : x = a
  · subst hx
    simp [setSize, haddr, hg]
  · simp [setSize, haddr, hx]

/-- Any state reached by a completed alloc/dealloc round trip has the
fixpoint shape of `cycle_head_fix`. -/
theorem cycle_some_shape (s : HeapState) (l : Layout) (s1 : HeapState)
    (h : s.cycle l = some s1) :
    ∃ a t fl g pa, sizeFromLayout l ≤ t ∧ t - sizeFromLayout l < MINIMUM_SIZE ∧
      g a = none ∧ s1 = ⟨{ addr := a, size := t } :: fl, g, pa⟩ := by
  unfold HeapState.cycle at h
  rcases hal : s.alloc l with ⟨op, s2⟩
  rw [hal] at h
  rcases op with _ | p
  · cases h
  · obtain ⟨a, t, hp, hsz, hr, hmin⟩ := alloc_some_spec s l p (by rw [hal])
    rw [hal] at hsz
    simp only at h hsz
    subst hp
    have hs : s2.allocSizes (a + METADATA_SIZE - METADATA_SIZE) = some t := by
      rwa [Nat.add_sub_cancel]
    have hl : l.size ≤ t - METADATA_SIZE := by
      have := sizeFromLayout_lower l
      unfold METADATA_SIZE at *
      omega
    rw [dealloc_known s2 (a + METADATA_SIZE) l t hs hl] at h
    simp only [Option.some.injEq] at h
    refine ⟨a, t, s2.freeList, setSize s2.allocSizes (a + METADATA_SIZE - METADATA_SIZE) none,
      s2.pageAlloc, hr, hmin, by simp [setSize, Nat.add_sub_cancel], ?_⟩
    rw [← h]
    rw [Nat.add_sub_cancel]

/-- The alloc/dealloc round trip is idempotent on its image. -/
theorem cycle_fix (s : HeapState) (l : Layout) (s1 : HeapState)
    (h : s.cycle l = some s1) : s1.cycle l = some s1 := by
  obtain ⟨a, t, fl, g, pa, hr, hmin, hg, rfl⟩ := cycle_some_shape s l s1 h
  exact cycle_head_fix a t fl g pa l hr hmin hg

theorem iterCycle_fix (l : Layout) (s s1 : HeapState) (h : s.cycle l = some s1) :
    ∀ n, iterCycle l n s1 = some s1 := by
  intro n
  induction n with
  | zero => rfl
  | succ n ih =>
    unfold iterCycle
    rw [cycle_fix s l s1 h]
    exact ih

/-- A one-block free list over a trivial page allocator (used as a small
concrete heap state). -/
def heapWithFree (fl : List Block) : HeapState :=
  { freeList := fl, allocSizes := fun _ => none, pageAlloc := { base := 4096, pages := [] } }

theorem zalloc_some_addr (st : PageAllocState) (n addr : Nat) (pa : PageAllocState)
    (hz : zallocPages st n = some (addr, pa)) :
    (∃ i, addr = st.base + i * PAGE_SIZE) ∧ pa.base = st.base := by
  unfold zallocPages at hz
  rcases hf : firstFit n st.pages with _ | i
  · rw [hf] at hz; cases hz
  · rw [hf] at hz
    simp only [Option.map_some'] at hz
    rw [Option.some.injEq, Prod.mk.injEq] at hz
    obtain ⟨h1, h2⟩ := hz
    exact ⟨⟨i, h1.symm⟩, by rw [← h2]⟩

theorem mem_of_findAndRemove_rest (r : Nat) (l : List Block) (b : Block)
    (rest : List Block) (h : findAndRemove r l = some (b, rest)) :
    (∀ x ∈ rest, x ∈ l) ∧ b ∈ l := by
  obtain ⟨pre, post, hl, hr, _, _⟩ := findAndRemove_some r l b rest h
  subst hl
  constructor
  · intro x hx
    rw [hr] at hx
    rcases List.mem_append.mp hx with h1 | h2
    · exact List.mem_append.mpr (Or.inl h1)
    · exact List.mem_append.mpr (Or.inr (List.mem_cons_of_mem _ h2))
  · exact List.mem_append.mpr (Or.inr (List.mem_cons_self _ _))

/-- Alignment is an invariant of `alloc`, and every pointer handed out is
8-byte aligned. -/
theorem alloc_preserves_aligned (s : HeapState) (l : Layout) (hs : AlignedState s) :
    (∀ p, (s.alloc l).1 = some p → p % 8 = 0) ∧ AlignedState (s.alloc l).2 := by
  obtain ⟨hfree, hsizes, hbase⟩ := hs
  simp only [AlignedState]
  have hmod : sizeFromLayout l % 8 = 0 := sizeFromLayout_mod l
  rcases hfr : findAndRemove (sizeFromLayout l) s.freeList with _ | ⟨b, rest⟩
  · rcases hz : zallocPages s.pageAlloc (minimumAmountOfPages (sizeFromLayout l)) with
      _ | ⟨addr, pa⟩
    · rw [alloc_null s l hfr hz]
      refine ⟨(fun p hp => by cases hp), ?_, ?_, ?_⟩
      · exact hfree
      · exact hsizes
      · exact hbase
    · obtain ⟨⟨i, hi⟩, hpb⟩ := zalloc_some_addr _ _ _ _ hz
      have haddr : addr % 8 = 0 := by
        unfold PAGE_SIZE at hi
        omega
      rw [alloc_pages s l addr pa hfr hz]
      by_cases hsplit :
          (Block.mk addr (minimumAmountOfPages (sizeFromLayout l) * PAGE_SIZE)).size -
            sizeFromLayout l < MINIMUM_SIZE
      · rw [splitIfNecessary_keep _ _ hsplit]
        refine ⟨fun p hp => ?_, hfree, fun a t ha => ?_, by rw [hpb]; exact hbase⟩
        · simp only [Option.some.injEq] at hp
          unfold METADATA_SIZE at hp
          omega
        · simp only [setSize] at ha
          by_cases hx : a = addr
          · omega
          · rw [if_neg hx] at ha
            exact hsizes a t ha
      · rw [splitIfNecessary_cut _ _ hsplit]
        refine ⟨fun p hp => ?_, ?_, fun a t ha => ?_, by rw [hpb]; exact hbase⟩
        · simp only [Option.some.injEq] at hp
          unfold METADATA_SIZE at hp
          omega
        · intro x hx
          rcases List.mem_cons.mp hx with rfl | hmem
          · simp only
            omega
          · exact hfree x hmem
        · simp only [setSize] at ha
          by_cases hx : a = addr
          · omega
          · rw [if_neg hx] at ha
            exact hsizes a t ha
  · obtain ⟨hrest, hbmem⟩ := mem_of_findAndRemove_rest _ _ _ _ hfr
    have hb8 : b.addr % 8 = 0 := hfree b hbmem
    rw [alloc_found s l b rest hfr]
    by_cases hsplit : b.size - sizeFromLayout l < MINIMUM_SIZE
    · rw [splitIfNecessary_keep _ _ hsplit]
      refine ⟨fun p hp => ?_, fun x hx => hfree x (hrest x hx), fun a t ha => ?_, hbase⟩
      · simp only [Option.some.injEq] at hp
        unfold METADATA_SIZE at hp
        omega
      · simp only [setSize] at ha
        by_cases hx : a = b.addr
        · omega
        · rw [if_neg hx] at ha
          exact hsizes a t ha
    · rw [splitIfNecessary_cut _ _ hsplit]
      refine ⟨fun p hp => ?_, ?_, fun a t ha => ?_, hbase⟩
      · simp only [Option.some.injEq] at hp
        unfold METADATA_SIZE at hp
        omega
      · intro x hx
        rcases List.mem_cons.mp hx with rfl | hmem
        · simp only
          omega
        · exact hfree x (hrest x hmem)
      · simp only [setSize] at ha
        by_cases hx : a = b.addr
        · omega
        · rw [if_neg hx] at ha
          exact hsizes a t ha

theorem dealloc_preserves_aligned (s : HeapState) (ptr : Nat) (l : Layout)
    (s2 : HeapState) (hs : AlignedState s) (h : s.dealloc ptr l = some s2) :
    AlignedState s2 := by
  obtain ⟨hfree, hsizes, hbase⟩ := hs
  unfold AlignedState
  rcases ha : s.allocSizes (ptr - METADATA_SIZE) with _ | t
  · unfold HeapState.dealloc at h
    rw [ha] at h
    cases h
  · by_cases hl : l.size ≤ t - METADATA_SIZE
    · rw [dealloc_known s ptr l t ha hl] at h
      simp only [Option.some.injEq] at h
      subst h
      refine ⟨?_, fun a t2 ha2 => ?_, hbase⟩
      · intro x hx
        rcases List.mem_cons.mp hx with rfl | hmem
        · exact hsizes _ t ha
        · exact hfree x hmem
      · simp only [setSize] at ha2
        by_cases hx : a = ptr - METADATA_SIZE
        · rw [if_pos hx] at ha2; cases ha2
        · rw [if_neg hx] at ha2
          exact hsizes a t2 ha2
    · rw [dealloc_small s ptr l t ha hl] at h
      cases h

/-! ### Claims C5, C6, C7, C9 -/

/-- Claim C5, counterexample: allocating a 1-byte layout from a fresh heap
and deallocating it restores a block of 24 total bytes to the free list,
not `layout.size() + METADATA_SIZE = 17` — `dealloc` restores the rounded
size recorded in the header, not exactly size-plus-metadata. -/
theorem c5_dealloc_not_exact :
    ((initHeap 7 4096).alloc { size := 1, align := 1 }).1 = some 4112 ∧
    (((initHeap 7 4096).alloc { size := 1, align := 1 }).2.dealloc 4112
        { size := 1, align := 1 }).map (fun s => s.freeList.map Block.size) =
      some [24, 4072] ∧
    ¬(24 = 1 + METADATA_SIZE) := by
  refine ⟨by decide, by decide, by decide⟩

/-- Claim C5 (amended): `dealloc(A.ptr, A.layout)` restores to the free
list exactly one block whose total size is the size recorded at
allocation — at least `align_up(L.size() + metadata, 8)` and within
`MINIMUM_SIZE` of it — and repeated alloc/dealloc cycles of the identical
layout keep the free-list length bounded: after the first round trip the
heap state is a fixpoint of the cycle. -/
theorem c5_dealloc_restores_recorded_size (s : HeapState) (l : Layout) :
    (∀ p, (s.alloc l).1 = some p →
      ∃ t, (s.alloc l).2.allocSizes (p - METADATA_SIZE) = some t ∧
        sizeFromLayout l ≤ t ∧ t - sizeFromLayout l < MINIMUM_SIZE ∧
        ∃ s2, (s.alloc l).2.dealloc p l = some s2 ∧
          s2.freeList =
            { addr := p - METADATA_SIZE, size := t } :: (s.alloc l).2.freeList) ∧
    (∀ s1, s.cycle l = some s1 → ∀ n, iterCycle l n s1 = some s1) := by
  constructor
  · intro p hp
    obtain ⟨a, t, rfl, hsz, hr, hmin⟩ := alloc_some_spec s l p hp
    have ha : a + METADATA_SIZE - METADATA_SIZE = a := Nat.add_sub_cancel ..
    refine ⟨t, by rwa [ha], hr, hmin, ?_⟩
    have hl : l.size ≤ t - METADATA_SIZE := by
      have := sizeFromLayout_lower l
      unfold METADATA_SIZE at *
      omega
    exact ⟨_, dealloc_known _ _ _ t (by rwa [ha]) hl, rfl⟩
  · intro s1 h n
    exact iterCycle_fix l s s1 h n

/-- Claim C5, witness: the 1-byte layout on the fresh test heap. -/
theorem c5_dealloc_restores_recorded_size_witness :
    (∃ t, ((initHeap 7 4096).alloc { size := 1, align := 1 }).2.allocSizes
        (4112 - METADATA_SIZE) = some t ∧
      sizeFromLayout { size := 1, align := 1 } ≤ t ∧
      t - sizeFromLayout { size := 1, align := 1 } < MINIMUM_SIZE ∧
      ∃ s2, ((initHeap 7 4096).alloc { size := 1, align := 1 }).2.dealloc 4112
          { size := 1, align := 1 } = some s2 ∧
        s2.freeList = { addr := 4112 - METADATA_SIZE, size := t } ::
          ((initHeap 7 4096).alloc { size := 1, align := 1 }).2.freeList) ∧
    (∀ n, iterCycle { size := 1, align := 1 } n
        (((initHeap 7 4096).cycle { size := 1, align := 1 }).getD (initHeap 7 4096)) =
      some (((initHeap 7 4096).cycle { size := 1, align := 1 }).getD (initHeap 7 4096))) := by
  have h := c5_dealloc_restores_recorded_size (initHeap 7 4096) { size := 1, align := 1 }
  exact ⟨h.1 4112 (by decide), h.2 _ rfl⟩

/-- Claim C6, counterexample: a block whose total size equals the rounded
request plus `MINIMUM_SIZE` exactly (so not *strictly* larger) is still
split by `alloc`: the tail block appears on the free list. -/
theorem c6_split_at_exact_surplus :
    ¬(48 > sizeFromLayout { size := 8, align := 8 } + MINIMUM_SIZE) ∧
    findAndRemove (sizeFromLayout { size := 8, align := 8 })
        (heapWithFree [{ addr := 4096, size := 48 }]).freeList =
      some ({ addr := 4096, size := 48 }, []) ∧
    ((heapWithFree [{ addr := 4096, size := 48 }]).alloc
        { size := 8, align := 8 }).2.freeList = [{ addr := 4120, size := 24 }] := by
  refine ⟨by decide, by decide, by decide⟩

/-- Claim C6 (amended): during alloc the chosen free block is split iff its
total size is at least the rounded request plus `MINIMUM_SIZE` (the source
tests `current - requested < MINIMUM_SIZE`, so at exact equality the block
is split); when split, the head becomes the allocation and the tail of
`size - requested` bytes is inserted at the head of the free list; with a
smaller surplus the whole block is handed out unsplit. -/
theorem c6_split_condition (s : HeapState) (l : Layout) (b : Block) (rest : List Block)
    (hfr : findAndRemove (sizeFromLayout l) s.freeList = some (b, rest)) :
    (sizeFromLayout l + MINIMUM_SIZE ≤ b.size →
      (s.alloc l).1 = some (b.addr + METADATA_SIZE) ∧
      (s.alloc l).2.freeList =
        { addr := b.addr + sizeFromLayout l, size := b.size - sizeFromLayout l } :: rest) ∧
    (b.size < sizeFromLayout l + MINIMUM_SIZE →
      (s.alloc l).1 = some (b.addr + METADATA_SIZE) ∧
      (s.alloc l).2.freeList = rest) := by
  obtain ⟨_, _, _, _, hsize, _⟩ := findAndRemove_some _ _ _ _ hfr
  rw [alloc_found s l b rest hfr]
  constructor
  · intro hge
    rw [splitIfNecessary_cut _ _ (by omega)]
    exact ⟨rfl, rfl⟩
  · intro hlt
    rw [splitIfNecessary_keep _ _ (by omega)]
    exact ⟨rfl, rfl⟩

/-- Claim C6, witness: a page-sized block split by a small request. -/
theorem c6_split_condition_witness :
    ((heapWithFree [{ addr := 4096, size := 4096 }]).alloc { size := 8, align := 8 }).1 =
      some (4096 + METADATA_SIZE) ∧
    ((heapWithFree [{ addr := 4096, size := 4096 }]).alloc
        { size := 8, align := 8 }).2.freeList =
      { addr := 4096 + sizeFromLayout { size := 8, align := 8 },
        size := 4096 - sizeFromLayout { size := 8, align := 8 } } :: [] :=
  (c6_split_condition (heapWithFree [{ addr := 4096, size := 4096 }])
    { size := 8, align := 8 } { addr := 4096, size := 4096 } [] (by decide)).1 (by decide)

/-- Claim C7: alloc takes the first free-list block at least as large as
the rounded request, unlinking it; it returns null iff no free-list block
fits and the page allocator cannot supply `ceil(total/PAGE_SIZE)` pages;
and the exhaustion scenario on the 7-usable-page test heap: a block of
`(HEAP_PAGES-1)*PAGE_SIZE - metadata` bytes succeeds, a following 1-byte
allocation returns null, and after deallocating the large block a 1-byte
allocation succeeds again. -/
theorem c7_alloc_first_fit_and_exhaustion (s : HeapState) (l : Layout) :
    (∀ b rest, findAndRemove (sizeFromLayout l) s.freeList = some (b, rest) →
      ∃ pre post, s.freeList = pre ++ b :: post ∧ rest = pre ++ post ∧
        sizeFromLayout l ≤ b.size ∧ ∀ x ∈ pre, x.size < sizeFromLayout l) ∧
    ((s.alloc l).1 = none ↔
      findAndRemove (sizeFromLayout l) s.freeList = none ∧
      zallocPages s.pageAlloc (minimumAmountOfPages (sizeFromLayout l)) = none) ∧
    (findAndRemove (sizeFromLayout l) s.freeList = none ↔
      ∀ b ∈ s.freeList, b.size < sizeFromLayout l) ∧
    (((initHeap 7 4096).alloc { size := 28656, align := 8 }).1 = some 4112 ∧
      (((initHeap 7 4096).alloc { size := 28656, align := 8 }).2.alloc
        { size := 1, align := 1 }).1 = none ∧
      ∃ s2, ((initHeap 7 4096).alloc { size := 28656, align := 8 }).2.dealloc 4112
          { size := 28656, align := 8 } = some s2 ∧
        (s2.alloc { size := 1, align := 1 }).1 = some 4112) := by
  refine ⟨fun b rest h => findAndRemove_some _ _ _ _ h, ?_, findAndRemove_none_iff _ _, ?_⟩
  · rcases hfr : findAndRemove (sizeFromLayout l) s.freeList with _ | ⟨b, rest⟩
    · rcases hz : zallocPages s.pageAlloc (minimumAmountOfPages (sizeFromLayout l)) with
        _ | ⟨addr, pa⟩
      · rw [alloc_null s l hfr hz]
        simp
      · rw [alloc_pages s l addr pa hfr hz]
        simp [hz]
    · rw [alloc_found s l b rest hfr]
      simp [hfr]
  · refine ⟨by decide, by decide,
      ⟨(((initHeap 7 4096).alloc { size := 28656, align := 8 }).2.dealloc 4112
          { size := 28656, align := 8 }).getD (initHeap 7 4096), rfl, by decide⟩⟩

/-- Claim C7, witness: first-fit skips a too-small block. -/
theorem c7_alloc_first_fit_witness :
    ∃ pre post,
      (heapWithFree [{ addr := 4096, size := 8 }, { addr := 5000, size := 100 }]).freeList =
        pre ++ { addr := 5000, size := 100 } :: post ∧
      ([{ addr := 4096, size := 8 }] : List Block) = pre ++ post ∧
      sizeFromLayout { size := 8, align := 1 } ≤ (Block.mk 5000 100).size ∧
      ∀ x ∈ pre, x.size < sizeFromLayout { size := 8, align := 1 } :=
  (c7_alloc_first_fit_and_exhaustion
    (heapWithFree [{ addr := 4096, size := 8 }, { addr := 5000, size := 100 }])
    { size := 8, align := 1 }).1 { addr := 5000, size := 100 }
    [{ addr := 4096, size := 8 }] (by decide)

/-- Claim C9: heap alloc ignores `layout.align()` entirely; every non-null
pointer it returns is 8-byte aligned (over the aligned-state invariant,
which `alloc` and `dealloc` both preserve); and on a reachable heap state a
layout with alignment 16 receives the pointer 4136, which is not 16-byte
aligned — 8 is the only alignment the allocator guarantees. -/
theorem c9_alloc_alignment :
    (∀ (s : HeapState) (size a1 a2 : Nat),
      s.alloc { size := size, align := a1 } = s.alloc { size := size, align := a2 }) ∧
    (∀ (s : HeapState) (l : Layout) (p : Nat), AlignedState s →
      (s.alloc l).1 = some p → p % 8 = 0) ∧
    (∀ (s : HeapState) (l : Layout), AlignedState s → AlignedState (s.alloc l).2) ∧
    (∀ (s : HeapState) (ptr : Nat) (l : Layout) (s2 : HeapState), AlignedState s →
      s.dealloc ptr l = some s2 → AlignedState s2) ∧
    (AlignedState (initHeap 7 4096) ∧
      (((initHeap 7 4096).alloc { size := 1, align := 1 }).2.alloc
        { size := 8, align := 16 }).1 = some 4136 ∧ ¬(4136 % 16 = 0)) := by
  refine ⟨fun s size a1 a2 => rfl,
    fun s l p hs hp => (alloc_preserves_aligned s l hs).1 p hp,
    fun s l hs => (alloc_preserves_aligned s l hs).2,
    fun s ptr l s2 hs h => dealloc_preserves_aligned s ptr l s2 hs h,
    ⟨?_, by decide, by decide⟩⟩
  refine ⟨?_, ?_, by decide⟩
  · intro b hb
    simp [initHeap] at hb
  · intro a t ha
    simp [initHeap] at ha

/-- Claim C9, witness: the alignment guarantee on the fresh test heap. -/
theorem c9_alloc_alignment_witness :
    ((initHeap 7 4096).alloc { size := 1, align := 1 }).1 = some 4112 ∧ 4112 % 8 = 0 := by
  refine ⟨by decide, ?_⟩
  exact c9_alloc_alignment.2.1 (initHeap 7 4096) { size := 1, align := 1 } 4112
    c9_alloc_alignment.2.2.2.2.1 (by decide)

/-! ### Claim C1: the userspace-pointer validator -/

/-- A page table with one valid userspace page that is readable but not
writable (W=0). -/
def ptReadOnly : PageTable :=
  [(1, { valid := true, read := true, write := false, exec := false, user := true, ppn := 7 })]

/-- A page table with one valid, writable userspace page. -/
def ptReadWrite : PageTable :=
  [(1, { valid := true, read := true, write := true, exec := false, user := true, ppn := 7 })]

instance : DecidableEq PageTable := by
  unfold PageTable
  infer_instance

/-- Claim C1, counterexample: a read-only reference argument lying in a
page that is mapped (V=1), userspace (U=1) and read-valid, but with W=0, is
rejected by `validate_and_translate_pointer` — the handler passes write
mode `true` for every reference argument, so validation of the claim's
read-only example fails instead of succeeding. -/
theorem c1_readonly_arg_rejected :
    isValidUserspacePtr ptReadOnly { addr := 4096, len := 4 } false = true ∧
    lookupPTE ptReadOnly 1 =
      some { valid := true, read := true, write := false, exec := false,
             user := true, ppn := 7 } ∧
    validateAndTranslatePointer ptReadOnly { addr := 4096, len := 4 } = none := by
  refine ⟨by decide, by decide, by decide⟩

theorem startPage_mem_pagesTouched (addr len : Nat) (h : 0 < len) :
    addr / PAGE_SIZE ∈ pagesTouched addr len := by
  unfold pagesTouched
  rw [if_neg (by omega)]
  have : addr / PAGE_SIZE ≤ (addr + len - 1) / PAGE_SIZE :=
    Nat.div_le_div_right (by omega)
  exact List.mem_range'_1.mpr ⟨by omega, by omega⟩

/-- Claim C1 (amended): for a reference-typed syscall argument of nonzero
length, the validator accepts iff every page the range covers is mapped
(V=1) with U=1 *and* W=1 — write permission is demanded for read-only and
mutable references alike, because `validate_and_translate_pointer` passes
write mode unconditionally. -/
theorem c1_validator_requires_write (pt : PageTable) (p : FatPointer) (h : 0 < p.len) :
    (∃ q, validateAndTranslatePointer pt p = some q) ↔
    (∀ vpn ∈ pagesTouched p.addr p.len, ∃ e, lookupPTE pt vpn = some e ∧
      e.valid = true ∧ e.user = true ∧ e.write = true) := by
  constructor
  · rintro ⟨q, hq⟩
    unfold validateAndTranslatePointer at hq
    by_cases hv : isValidUserspacePtr pt p true
    · intro vpn hvpn
      unfold isValidUserspacePtr at hv
      have := List.all_eq_true.mp hv vpn hvpn
      rcases he : lookupPTE pt vpn with _ | e
      · rw [he] at this
        cases this
      · rw [he] at this
        simp only [Bool.not_true, Bool.false_or, Bool.and_eq_true] at this
        exact ⟨e, rfl, this.1.1, this.1.2, this.2⟩
    · rw [if_pos (by simp [hv])] at hq
      cases hq
  · intro hall
    have hv : isValidUserspacePtr pt p true = true := by
      unfold isValidUserspacePtr
      rw [List.all_eq_true]
      intro vpn hvpn
      obtain ⟨e, he, h1, h2, h3⟩ := hall vpn hvpn
      rw [he]
      simp [h1, h2, h3]
    unfold validateAndTranslatePointer
    rw [if_neg (by simp [hv])]
    obtain ⟨e, he, h1, h2, _⟩ :=
      hall (p.addr / PAGE_SIZE) (startPage_mem_pagesTouched p.addr p.len h)
    unfold translateUserspaceAddressToPhysicalAddress
    rw [he]
    simp [h1, h2]

/-- Claim C1, witness: the same pointer on a writable page validates. -/
theorem c1_validator_requires_write_witness :
    ∃ q, validateAndTranslatePointer ptReadWrite { addr := 4096, len := 4 } = some q := by
  refine (c1_validator_requires_write ptReadWrite { addr := 4096, len := 4 } (by decide)).mpr ?_
  intro vpn hvpn
  have hpt : pagesTouched (FatPointer.mk 4096 4).addr (FatPointer.mk 4096 4).len = [1] := by
    decide
  rw [hpt] at hvpn
  have hv : vpn = 1 := by simpa using hvpn
  subst hv
  exact ⟨_, rfl, rfl, rfl, rfl⟩

/-! ### Process-table lemmas -/

theorem find_map_if (l : List Process) (q : Pid) (f : Process → Process)
    (hf : ∀ x, (f x).pid = x.pid) (pid : Pid) :
    (l.map (fun p => if p.pid = q then f p else p)).find? (fun p => p.pid == pid) =
      (l.find? (fun p => p.pid == pid)).map (fun p => if p.pid = q then f p else p) := by
  induction l with
  | nil => rfl
  | cons p0 rest ih =>
    have hpid : (if p0.pid = q then f p0 else p0).pid = p0.pid := by
      by_cases hq : p0.pid = q
      · rw [if_pos hq, hf]
      · rw [if_neg hq]
    by_cases hp : p0.pid = pid
    · rw [List.map_cons, List.find?_cons_of_pos _ (by rw [hpid]; simp [hp]),
        List.find?_cons_of_pos _ (by simp [hp]), Option.map_some']
    · rw [List.map_cons, List.find?_cons_of_neg _ (by rw [hpid]; simp [hp]),
        List.find?_cons_of_neg _ (by simp [hp])]
      exact ih

theorem getProcess_some_pid (m : Machine) (pid : Pid) (p : Process)
    (h : m.getProcess pid = some p) : p.pid = pid := by
  unfold Machine.getProcess at h
  have := List.find?_some h
  simpa using this

theorem getProcess_mem (m : Machine) (pid : Pid) (p : Process)
    (h : m.getProcess pid = some p) : p ∈ m.procs :=
  List.mem_of_find?_eq_some h

theorem getProcess_update (m : Machine) (q : Pid) (f : Process → Process)
    (hf : ∀ x, (f x).pid = x.pid) (pid : Pid) :
    (m.updateProcess q f).getProcess pid =
      (m.getProcess pid).map (fun p => if p.pid = q then f p else p) := by
  unfold Machine.getProcess Machine.updateProcess
  exact find_map_if m.procs q f hf pid

theorem find_pid_of_mem_nodup (l : List Process) (p : Process)
    (hmem : p ∈ l) (hnodup : (l.map Process.pid).Nodup) :
    l.find? (fun x => x.pid == p.pid) = some p := by
  induction l with
  | nil => cases hmem
  | cons p0 rest ih =>
    simp only [List.map_cons, List.nodup_cons] at hnodup
    rcases List.mem_cons.mp hmem with rfl | hmem2
    · exact List.find?_cons_of_pos _ (by simp)
    · have hne : p0.pid ≠ p.pid := by
        intro he
        exact hnodup.1 (he ▸ List.mem_map_of_mem Process.pid hmem2)
      rw [List.find?_cons_of_neg _ (by simp [hne])]
      exact ih hmem2 hnodup.2

theorem getProcess_of_mem_nodup (m : Machine) (p : Process)
    (hmem : p ∈ m.procs) (hnodup : (m.procs.map Process.pid).Nodup) :
    m.getProcess p.pid = some p :=
  find_pid_of_mem_nodup m.procs p hmem hnodup

theorem minByPid_mem (l : List Process) (p : Process) (h : minByPid l = some p) :
    p ∈ l := by
  induction l generalizing p with
  | nil => cases h
  | cons p0 rest ih =>
    unfold minByPid at h
    split at h
    · rw [Option.some.injEq] at h
      subst h
      exact List.mem_cons_self _ _
    · rename_i q hm
      split at h
      · rw [Option.some.injEq] at h
        subst h
        exact List.mem_cons_self _ _
      · rw [Option.some.injEq] at h
        subst h
        exact List.mem_cons_of_mem _ (ih q hm)

theorem nextRunnable_spec (procs : List Process) (after : Pid) (p : Process)
    (h : nextRunnable procs after = some p) :
    p ∈ procs ∧ p.state = ProcState.Runnable := by
  unfold nextRunnable at h
  split at h
  · rename_i q hm
    rw [Option.some.injEq] at h
    subst h
    have hmem := List.mem_filter.mp (minByPid_mem _ _ hm)
    have := List.mem_filter.mp hmem.1
    exact ⟨this.1, by simpa using this.2⟩
  · have hmem := minByPid_mem _ _ h
    have := List.mem_filter.mp hmem
    exact ⟨this.1, by simpa using this.2⟩

theorem map_pid_if (l : List Process) (q : Pid) (f : Process → Process)
    (hf : ∀ x, (f x).pid = x.pid) :
    (l.map (fun p => if p.pid = q then f p else p)).map Process.pid = l.map Process.pid := by
  induction l with
  | nil => rfl
  | cons p0 rest ih =>
    simp only [List.map_cons, ih, List.cons.injEq, and_true]
    by_cases hq : p0.pid = q
    · rw [if_pos hq, hf]
    · rw [if_neg hq]

theorem updateCurrent_procs_pid (m : Machine) (f : Process → Process)
    (hf : ∀ x, (f x).pid = x.pid) :
    (m.updateCurrent f).procs.map Process.pid = m.procs.map Process.pid := by
  unfold Machine.updateCurrent
  by_cases hc : m.current = NEVER_PID
  · rw [if_pos hc]
  · rw [if_neg hc]
    exact map_pid_if m.procs m.current f hf

theorem queueBack_procs_pid (m : Machine) :
    (m.queueCurrentProcessBack.1).procs.map Process.pid = m.procs.map Process.pid := by
  unfold Machine.queueCurrentProcessBack
  exact updateCurrent_procs_pid m _ (fun x => rfl)

theorem queueBack_current (m : Machine) :
    (m.queueCurrentProcessBack.1).current = NEVER_PID := rfl

theorem updateCurrent_procs_length (m : Machine) (f : Process → Process) :
    (m.updateCurrent f).procs.length = m.procs.length := by
  unfold Machine.updateCurrent Machine.updateProcess
  by_cases hc : m.current = NEVER_PID
  · rw [if_pos hc]
  · rw [if_neg hc]
    exact List.length_map _ _

theorem updateCurrent_current (m : Machine) (f : Process → Process) :
    (m.updateCurrent f).current = m.current := by
  unfold Machine.updateCurrent Machine.updateProcess
  split
  · rfl
  · rfl

theorem updateProcess_current (m : Machine) (q : Pid) (f : Process → Process) :
    (m.updateProcess q f).current = m.current := rfl

theorem updateProcess_dummy (m : Machine) (q : Pid) (f : Process → Process) :
    (m.updateProcess q f).dummy = m.dummy := rfl

theorem currentProcess_pid (m : Machine) (hc : m.current ≠ NEVER_PID)
    (hcur : (m.getProcess m.current).isSome = true) :
    m.currentProcess.pid = m.current := by
  unfold Machine.currentProcess
  rw [if_neg hc]
  rcases hlc : m.getProcess m.current with _ | q
  · rw [hlc] at hcur
    cases hcur
  · show ((some q).getD m.dummy).pid = m.current
    rw [Option.getD_some]
    exact getProcess_some_pid m m.current q hlc

theorem currentProcess_updateCurrent (m : Machine) (f : Process → Process)
    (hf : ∀ x, (f x).pid = x.pid)
    (hcur : m.current = NEVER_PID ∨ (m.getProcess m.current).isSome = true) :
    (m.updateCurrent f).currentProcess = f m.currentProcess := by
  unfold Machine.updateCurrent
  by_cases hc : m.current = NEVER_PID
  · rw [if_pos hc]
    unfold Machine.currentProcess
    rw [if_pos hc, if_pos hc]
  · rw [if_neg hc]
    rcases hcur with h0 | h0
    · exact absurd h0 hc
    · rcases hlc : m.getProcess m.current with _ | q
      · rw [hlc] at h0
        cases h0
      · have hq : q.pid = m.current := getProcess_some_pid m m.current q hlc
        unfold Machine.currentProcess
        rw [updateProcess_current, if_neg hc, if_neg hc,
          getProcess_update m m.current f hf m.current, hlc, Option.map_some',
          if_pos hq]
        rfl

theorem getProcess_updateCurrent_ne (m : Machine) (f : Process → Process) (pid : Pid)
    (hf : ∀ x, (f x).pid = x.pid)
    (hcur : m.current = NEVER_PID ∨ (m.getProcess m.current).isSome = true)
    (hne : pid ≠ m.currentProcess.pid) :
    (m.updateCurrent f).getProcess pid = m.getProcess pid := by
  unfold Machine.updateCurrent
  by_cases hc : m.current = NEVER_PID
  · rw [if_pos hc]
    rfl
  · rw [if_neg hc]
    rcases hcur with h0 | h0
    · exact absurd h0 hc
    · rw [getProcess_update m m.current f hf pid]
      rcases hp : m.getProcess pid with _ | x
    
      · rfl
      · rw [Option.map_some']
        have hx : x.pid = pid := getProcess_some_pid m pid x hp
        have : x.pid ≠ m.current := by
          rw [hx]
          rw [currentProcess_pid m hc h0] at hne
          exact hne
        rw [if_neg this]

theorem currentProcess_updateProcess_ne (m : Machine) (g : Process → Process) (pid : Pid)
    (hg : ∀ x, (g x).pid = x.pid)
    (hcur : m.current = NEVER_PID ∨ (m.getProcess m.current).isSome = true)
    (hne : pid ≠ m.currentProcess.pid) :
    (m.updateProcess pid g).currentProcess = m.currentProcess := by
  unfold Machine.currentProcess
  rw [updateProcess_current, updateProcess_dummy]
  by_cases hc : m.current = NEVER_PID
  · rw [if_pos hc, if_pos hc]
  · rw [if_neg hc, if_neg hc]
    rcases hcur with h0 | h0
    · exact absurd h0 hc
    · rcases hlc : m.getProcess m.current with _ | q
      · rw [hlc] at h0
        cases h0
      · have hq : q.pid = m.current := getProcess_some_pid m m.current q hlc
        rw [getProcess_update m pid g hg m.current, hlc, Option.map_some']
        have : q.pid ≠ pid := by
          rw [hq]
          intro he
          apply hne
          rw [← he, currentProcess_pid m hc h0]
        rw [if_neg this]

/-! ### Concrete sample states -/

def zeroFrame : List Nat := List.replicate 32 0

def sampleWaiter : Process :=
  { pid := 1, state := ProcState.WaitingForInput, pc := 100, inKernelMode := false,
    trapFrame := zeroFrame, notifyOnDie := [] }

def sampleRunner : Process :=
  { pid := 2, state := ProcState.Runnable, pc := 200, inKernelMode := false,
    trapFrame := zeroFrame, notifyOnDie := [] }

def sampleDummy : Process :=
  { pid := NEVER_PID, state := ProcState.Runnable, pc := 0, inKernelMode := true,
    trapFrame := zeroFrame, notifyOnDie := [] }

def sampleMachine : Machine :=
  { procs := [sampleWaiter, sampleRunner], dummy := sampleDummy, current := NEVER_PID,
    trapFrame := zeroFrame, sepc := 55, retKernelMode := true,
    activePageTable := PageTableRef.kernel, timer := TimerState.disabled,
    sscratchKernel := true }

/-- A machine in which pid 1 is the Running current process. -/
def waitMachine : Machine :=
  { procs := [{ pid := 1, state := ProcState.Running, pc := 100, inKernelMode := false,
                trapFrame := zeroFrame, notifyOnDie := [] }, sampleRunner],
    dummy := sampleDummy, current := 1, trapFrame := zeroFrame, sepc := 55,
    retKernelMode := false, activePageTable := PageTableRef.proc 1,
    timer := TimerState.armed 10, sscratchKernel := false }

/-- A machine with an empty process table idling in the dummy. -/
def emptyMachine : Machine :=
  { procs := [], dummy := sampleDummy, current := NEVER_PID, trapFrame := zeroFrame,
    sepc := 55, retKernelMode := true, activePageTable := PageTableRef.kernel,
    timer := TimerState.disabled, sscratchKernel := true }

/-! ### Claim C3: schedule -/

/-- Claim C3, counterexample: when the process table is empty — so no
Runnable process exists — `schedule` does not set up the `wfi` idle state
the claim describes; it shuts the whole system down
(`qemu_exit::exit_success` runs before the no-runnable branch is
reached). -/
theorem c3_empty_table_shutdown :
    nextRunnable (emptyMachine.queueCurrentProcessBack.1).procs
      emptyMachine.queueCurrentProcessBack.2 = none ∧
    emptyMachine.schedule = ScheduleResult.shutdown ∧
    ∀ m2, ScheduleResult.shutdown ≠ ScheduleResult.idle m2 := by
  refine ⟨by decide, by decide, fun m2 h => by cases h⟩

/-- Claim C3 (amended): whenever `schedule()` runs and the process table
contains a next Runnable process after the current pid (pid-ordered
round-robin with wrap), that process's saved state is installed (trap
frame written, `sepc` set to its saved pc, kernel-mode flag set, its page
table activated), it is marked Running, it becomes current, and the timer
is armed for 10 ms; when the table is non-empty but no Runnable process
exists, `schedule()` activates the kernel page table, disables the timer,
points `sepc` at the `wfi` idle loop, keeps the dummy as the current
process, and arranges the return to supervisor mode; an empty table
instead shuts the system down. -/
theorem c3_schedule_install_and_idle (m : Machine)
    (hn : (m.procs.map Process.pid).Nodup) :
    (∀ p, nextRunnable (m.queueCurrentProcessBack.1).procs
        m.queueCurrentProcessBack.2 = some p →
      ∃ m2, m.schedule = ScheduleResult.installed m2 ∧
        m2.trapFrame = p.trapFrame ∧ m2.sepc = p.pc ∧
        m2.retKernelMode = p.inKernelMode ∧
        m2.activePageTable = PageTableRef.proc p.pid ∧
        m2.current = p.pid ∧ m2.timer = TimerState.armed 10 ∧
        m2.getProcess p.pid = some { p with state := ProcState.Running }) ∧
    ((m.queueCurrentProcessBack.1).procs ≠ [] →
      nextRunnable (m.queueCurrentProcessBack.1).procs
        m.queueCurrentProcessBack.2 = none →
      ∃ m2, m.schedule = ScheduleResult.idle m2 ∧
        m2.activePageTable = PageTableRef.kernel ∧ m2.timer = TimerState.disabled ∧
        m2.sepc = wfiLoopAddr ∧ m2.current = NEVER_PID ∧ m2.retKernelMode = true ∧
        m2.sscratchKernel = true) := by
  have hn2 : (((m.queueCurrentProcessBack.1).procs).map Process.pid).Nodup := by
    rw [queueBack_procs_pid]
    exact hn
  constructor
  · intro p h
    have hspec := nextRunnable_spec _ _ _ h
    have hne : (m.queueCurrentProcessBack.1).procs ≠ [] := List.ne_nil_of_mem hspec.1
    refine ⟨{ m.queueCurrentProcessBack.1 with
        trapFrame := p.trapFrame, sepc := p.pc, retKernelMode := p.inKernelMode,
        activePageTable := PageTableRef.proc p.pid,
        procs := (m.queueCurrentProcessBack.1).procs.map (fun q =>
          if q.pid = p.pid then { q with state := ProcState.Running } else q),
        current := p.pid, timer := TimerState.armed 10 },
      ?_, rfl, rfl, rfl, rfl, rfl, rfl, ?_⟩
    · unfold Machine.schedule
      rw [if_neg (by simp [List.isEmpty_iff, hne]), h]
    · show ((m.queueCurrentProcessBack.1).procs.map (fun q =>
        if q.pid = p.pid then { q with state := ProcState.Running } else q)).find?
          (fun x => x.pid == p.pid) = _
      rw [find_map_if (m.queueCurrentProcessBack.1).procs p.pid
          (fun q => { q with state := ProcState.Running }) (fun x => rfl) p.pid,
        find_pid_of_mem_nodup _ p hspec.1 hn2, Option.map_some', if_pos rfl]
  · intro hne h
    refine ⟨{ m.queueCurrentProcessBack.1 with
        activePageTable := PageTableRef.kernel, timer := TimerState.disabled,
        sepc := wfiLoopAddr, retKernelMode := true, sscratchKernel := true },
      ?_, rfl, rfl, rfl, rfl, rfl, rfl⟩
    unfold Machine.schedule
    rw [if_neg (by simp [List.isEmpty_iff, hne]), h]

/-- Claim C3, witness: a machine idling in the dummy with one Runnable
process (pid 2) installs that process. -/
theorem c3_schedule_install_witness :
    ∃ m2, sampleMachine.schedule = ScheduleResult.installed m2 ∧
      m2.trapFrame = sampleRunner.trapFrame ∧ m2.sepc = sampleRunner.pc ∧
      m2.retKernelMode = sampleRunner.inKernelMode ∧
      m2.activePageTable = PageTableRef.proc sampleRunner.pid ∧
      m2.current = sampleRunner.pid ∧ m2.timer = TimerState.armed 10 ∧
      m2.getProcess sampleRunner.pid =
        some { sampleRunner with state := ProcState.Running } :=
  (c3_schedule_install_and_idle sampleMachine (by decide)).1 sampleRunner (by decide)

/-! ### Claim C4: sys_wait -/

/-- Claim C4, counterexample: waiting on the caller's own pid — a pid that
*is* in the process table — makes `let_current_process_wait_for` lock the
same process spinlock mutex twice, so the call never returns (`none`)
instead of producing the Waiting/notify effects the claim states for every
existing pid. -/
theorem c4_wait_self_deadlock :
    (waitMachine.getProcess 1).isSome = true ∧ waitMachine.sysWait 1 = none := by
  exact ⟨rfl, rfl⟩

/-- Claim C4 (amended): `sys_wait(pid)` returns `Err(InvalidPid)` iff pid
is not in the process table, and in that case the machine state — the
caller's state, its pending return code and the target's `notify_on_die`
set included — is unchanged; if pid exists and differs from the caller's
pid, the caller's state becomes Waiting, its pending syscall return code
(saved `a0`) is set to 0, and its pid is pushed onto the target's
`notify_on_die` list; if pid exists and equals the caller's own pid, the
call never returns (the process mutex is acquired twice). -/
theorem c4_sys_wait_spec (m : Machine) (hwf : m.wf) (pid : Pid) :
    (m.getProcess pid = none →
      m.sysWait pid = some (Except.error SysWaitError.invalidPid, m)) ∧
    ((∃ m2, m.sysWait pid = some (Except.error SysWaitError.invalidPid, m2)) ↔
      m.getProcess pid = none) ∧
    (∀ p, m.getProcess pid = some p → pid = m.currentProcess.pid →
      m.sysWait pid = none) ∧
    (∀ p, m.getProcess pid = some p → pid ≠ m.currentProcess.pid →
      ∃ m2, m.sysWait pid = some (Except.ok (), m2) ∧
        m2.currentProcess.state = ProcState.Waiting ∧
        m2.currentProcess.trapFrame = m.currentProcess.trapFrame.set 10 0 ∧
        ∃ p2, m2.getProcess pid = some p2 ∧
          p2.notifyOnDie = m.currentProcess.pid :: p.notifyOnDie) := by
  obtain ⟨hnodup, hdummy, hcur, hzero⟩ := hwf
  have hfpid : ∀ x : Process, (waitingUpdate x).pid = x.pid := fun x => rfl
  have hgpid : ∀ x : Process,
      ((fun (q : Process) => q.addNotifyOnDie m.currentProcess.pid) x).pid = x.pid :=
    fun x => rfl
  have herr : m.getProcess pid = none →
      m.sysWait pid = some (Except.error SysWaitError.invalidPid, m) := by
    intro h
    unfold Machine.sysWait Machine.letCurrentProcessWaitFor
    rw [h]
    rfl
  have hhang : ∀ p, m.getProcess pid = some p → pid = m.currentProcess.pid →
      m.sysWait pid = none := by
    intro p h he
    unfold Machine.sysWait Machine.letCurrentProcessWaitFor
    rw [h]
    dsimp only
    rw [if_pos he]
    rfl
  have hokeq : ∀ p, m.getProcess pid = some p → pid ≠ m.currentProcess.pid →
      m.sysWait pid = some (Except.ok (),
        (m.updateCurrent waitingUpdate).updateProcess pid
          (fun q => q.addNotifyOnDie m.currentProcess.pid)) := by
    intro p h hne
    unfold Machine.sysWait Machine.letCurrentProcessWaitFor
    rw [h]
    dsimp only
    rw [if_neg hne]
    rfl
  refine ⟨herr, ?_, hhang, ?_⟩
  · constructor
    · rintro ⟨m2, hm2⟩
      rcases hp : m.getProcess pid with _ | p
      · rfl
      · by_cases he : pid = m.currentProcess.pid
        · rw [hhang p hp he] at hm2
          cases hm2
        · rw [hokeq p hp he] at hm2
          simp only [Option.some.injEq, Prod.mk.injEq] at hm2
          cases hm2.1
    · intro h
      exact ⟨m, herr h⟩
  · intro p hp hne
    have hppid : p.pid = pid := getProcess_some_pid m pid p hp
    have hcur2 : (m.updateCurrent waitingUpdate).current = NEVER_PID ∨
        ((m.updateCurrent waitingUpdate).getProcess
          (m.updateCurrent waitingUpdate).current).isSome = true := by
      rw [updateCurrent_current]
      rcases hcur with h0 | h0
      · exact Or.inl h0
      · refine Or.inr ?_
        unfold Machine.updateCurrent
        by_cases hc : m.current = NEVER_PID
        · rw [if_pos hc]
          exact h0
        · rw [if_neg hc, getProcess_update m m.current _ hfpid m.current]
          obtain ⟨q, hq⟩ := Option.isSome_iff_exists.mp h0
          rw [hq]
          rfl
    have hA : (m.updateCurrent waitingUpdate).currentProcess =
        waitingUpdate m.currentProcess :=
      currentProcess_updateCurrent m _ hfpid hcur
    have hne2 : pid ≠ (m.updateCurrent waitingUpdate).currentProcess.pid := by
      rw [hA, hfpid]
      exact hne
    have hB := currentProcess_updateProcess_ne (m.updateCurrent waitingUpdate)
      (fun q => q.addNotifyOnDie m.currentProcess.pid) pid hgpid hcur2 hne2
    refine ⟨_, hokeq p hp hne, ?_, ?_, ?_⟩
    · rw [hB, hA]
      rfl
    · rw [hB, hA]
      rfl
    · have hinner : (m.updateCurrent waitingUpdate).getProcess pid = some p := by
        rw [getProcess_updateCurrent_ne m _ pid hfpid hcur hne]
        exact hp
      rw [getProcess_update _ pid _ hgpid pid, hinner, Option.map_some',
        if_pos hppid]
      exact ⟨_, rfl, rfl⟩

/-- Claim C4, witness: on `waitMachine` (current pid 1), waiting for
pid 2 succeeds with the amended effects, and waiting for a dead pid
reports `InvalidPid` with the state unchanged. -/
theorem c4_sys_wait_witness :
    (waitMachine.sysWait 9 =
      some (Except.error SysWaitError.invalidPid, waitMachine)) ∧
    (∃ m2, waitMachine.sysWait 2 = some (Except.ok (), m2) ∧
      m2.currentProcess.state = ProcState.Waiting ∧
      m2.currentProcess.trapFrame = waitMachine.currentProcess.trapFrame.set 10 0 ∧
      ∃ p2, m2.getProcess 2 = some p2 ∧
        p2.notifyOnDie = waitMachine.currentProcess.pid :: sampleRunner.notifyOnDie) := by
  have h := c4_sys_wait_spec waitMachine (by decide) 2
  have h9 := c4_sys_wait_spec waitMachine (by decide) 9
  refine ⟨h9.1 (by decide), ?_⟩
  exact h.2.2.2 sampleRunner (by decide) (by decide)

/-! ### Claim C8: the dispatch wrapper -/

theorem sysWait_none_iff (m : Machine) (pid : Pid) :
    m.sysWait pid = none ↔
      ((m.getProcess pid).isSome = true ∧ pid = m.currentProcess.pid) := by
  unfold Machine.sysWait Machine.letCurrentProcessWaitFor
  rcases hp : m.getProcess pid with _ | p
  · simp
  · by_cases he : pid = m.currentProcess.pid
    · simp [he]
    · simp [he]

/-- A sample kernel used by concrete dispatch scenarios. -/
def sampleKernel : Kernel :=
  { mach := waitMachine, stdin := { data := [], wakeupQueue := [] },
    programs := ["yash", "loop"], nextPid := 3, openPorts := [], mmapNext := 0 }

/-- Claim C8, counterexample: `sys_panic` is not `exit`, yet the dispatch
wrapper returns no syscall status for it either — the kernel panics and
`handle_syscall` never returns, contradicting the claim that every
non-exit call produces a status to be written back. -/
theorem c8_dispatch_panic_no_status :
    sampleKernel.handleSyscall Syscall.sysPanic = DispatchOutcome.panicked ∧
    (∀ st, Syscall.sysPanic ≠ Syscall.exit st) ∧
    (∀ ret k1, DispatchOutcome.panicked ≠ DispatchOutcome.completed ret k1) := by
  refine ⟨rfl, fun st h => (by cases h), fun ret k1 h => (by cases h)⟩

/-- Claim C8 (amended): dispatch completes with no syscall status exactly
for `exit` (whereupon the trap path yields to the scheduler rather than
writing a return value into the now-dummy trap frame); it panics the
kernel exactly for `sys_panic`; it never returns exactly for a `wait` on
the caller's own live pid; every other dispatched syscall completes with
a status. -/
theorem c8_dispatch_status_iff (k : Kernel) (c : Syscall) :
    ((∃ k1, k.handleSyscall c = DispatchOutcome.completed none k1) ↔
      ∃ st, c = Syscall.exit st) ∧
    (k.handleSyscall c = DispatchOutcome.panicked ↔ c = Syscall.sysPanic) ∧
    (k.handleSyscall c = DispatchOutcome.hung ↔
      ∃ pid, c = Syscall.wait pid ∧ (k.mach.getProcess pid).isSome = true ∧
        pid = k.mach.currentProcess.pid) := by
  cases c with
  | printPrograms => refine ⟨?_, ?_, ?_⟩ <;> simp [Kernel.handleSyscall]
  | sysPanic => refine ⟨?_, ?_, ?_⟩ <;> simp [Kernel.handleSyscall]
  | writeChar ch => refine ⟨?_, ?_, ?_⟩ <;> simp [Kernel.handleSyscall]
  | readInput => refine ⟨?_, ?_, ?_⟩ <;> simp [Kernel.handleSyscall]
  | readInputWait =>
    rcases hh : k.stdin.pop.1 with _ | b <;>
      refine ⟨?_, ?_, ?_⟩ <;> simp [Kernel.handleSyscall, hh]
  | exit st => refine ⟨?_, ?_, ?_⟩ <;> simp [Kernel.handleSyscall]
  | execute name ptrOk =>
    by_cases hpr : name ∈ k.programs <;> cases ptrOk <;>
      refine ⟨?_, ?_, ?_⟩ <;> simp [Kernel.handleSyscall, Kernel.startProgram, hpr]
  | wait pid =>
    rcases hw : k.mach.sysWait pid with _ | ⟨res, m1⟩
    · have hcond := (sysWait_none_iff k.mach pid).mp hw
      refine ⟨?_, ?_, ?_⟩ <;> simp [Kernel.handleSyscall, hw]
      exact ⟨hcond.1, hcond.2⟩
    · have hnone : ¬((k.mach.getProcess pid).isSome = true ∧
          pid = k.mach.currentProcess.pid) := by
        intro hcond
        rw [(sysWait_none_iff k.mach pid).mpr hcond] at hw
        cases hw
      cases res with
      | ok u => refine ⟨?_, ?_, ?_⟩ <;> simp [Kernel.handleSyscall, hw, hnone]
      | error e => refine ⟨?_, ?_, ?_⟩ <;> simp [Kernel.handleSyscall, hw, hnone]
  | mmapPages n => refine ⟨?_, ?_, ?_⟩ <;> simp [Kernel.handleSyscall]
  | openUdpSocket port =>
    by_cases hpo : port ∈ k.openPorts <;>
      refine ⟨?_, ?_, ?_⟩ <;> simp [Kernel.handleSyscall, hpo]
  | writeUdpSocket desc buf ptrOk =>
    cases ptrOk <;> refine ⟨?_, ?_, ?_⟩ <;> simp [Kernel.handleSyscall]
  | readUdpSocket desc len ptrOk =>
    cases ptrOk <;> refine ⟨?_, ?_, ?_⟩ <;> simp [Kernel.handleSyscall]

/-! ### Stdin push lemmas -/

theorem resumeOnSyscall_idem (p : Process) (b : Nat) :
    (p.resumeOnSyscall b).resumeOnSyscall b = p.resumeOnSyscall b := by
  unfold Process.resumeOnSyscall
  simp [List.set_set]

theorem getProcess_deliver_step (b : Nat) (q pid : Pid) (m : Machine) (hne : pid ≠ q) :
    (if (m.getProcess q).isSome then
        m.updateProcess q (fun p => p.resumeOnSyscall b) else m).getProcess pid =
      m.getProcess pid := by
  by_cases hq : (m.getProcess q).isSome
  · rw [if_pos hq,
      getProcess_update m q (fun p => p.resumeOnSyscall b) (fun x => rfl) pid]
    rcases hp : m.getProcess pid with _ | x
    · rfl
    · rw [Option.map_some']
      have hx : x.pid = pid := getProcess_some_pid m pid x hp
      rw [if_neg (by rw [hx]; exact hne)]
  · rw [if_neg hq]

theorem deliver_not_mem (b : Nat) (l : List Pid) :
    ∀ (m : Machine) (pid : Pid), pid ∉ l →
      (deliverToWaiters b l m).getProcess pid = m.getProcess pid := by
  induction l with
  | nil => intro m pid _; rfl
  | cons q rest ih =>
    intro m pid hmem
    have hq : pid ≠ q := fun he => hmem (he ▸ List.mem_cons_self q rest)
    have hr : pid ∉ rest := fun hx => hmem (List.mem_cons_of_mem _ hx)
    unfold deliverToWaiters
    rw [List.foldl_cons]
    have hstep := ih (if (m.getProcess q).isSome then
        m.updateProcess q (fun p => p.resumeOnSyscall b) else m) pid hr
    unfold deliverToWaiters at hstep
    rw [hstep]
    exact getProcess_deliver_step b q pid m hq

theorem deliver_mem (b : Nat) (l : List Pid) :
    ∀ (m : Machine) (p : Process) (pid : Pid), pid ∈ l →
      m.getProcess pid = some p →
      (deliverToWaiters b l m).getProcess pid = some (p.resumeOnSyscall b) := by
  induction l with
  | nil => intro m p pid h _; cases h
  | cons q rest ih =>
    intro m p pid hmem hp
    unfold deliverToWaiters
    rw [List.foldl_cons]
    by_cases hq : pid = q
    · subst hq
      have hstep : (if (m.getProcess pid).isSome then
          m.updateProcess pid (fun x => x.resumeOnSyscall b) else m).getProcess pid =
          some (p.resumeOnSyscall b) := by
        rw [if_pos (by rw [hp]; rfl),
          getProcess_update m pid (fun x => x.resumeOnSyscall b) (fun x => rfl) pid,
          hp, Option.map_some', if_pos (getProcess_some_pid m pid p hp)]
      by_cases hr : pid ∈ rest
      · have hres := ih _ (p.resumeOnSyscall b) pid hr hstep
        unfold deliverToWaiters at hres
        rw [hres, resumeOnSyscall_idem]
      · have hres := deliver_not_mem b rest (if (m.getProcess pid).isSome then
            m.updateProcess pid (fun x => x.resumeOnSyscall b) else m) pid hr
        unfold deliverToWaiters at hres
        rw [hres]
        exact hstep
    · have hstep : (if (m.getProcess q).isSome then
          m.updateProcess q (fun x => x.resumeOnSyscall b) else m).getProcess pid =
          some p := by
        rw [getProcess_deliver_step b q pid m hq]
        exact hp
      have hr : pid ∈ rest := by
        rcases List.mem_cons.mp hmem with h1 | h1
        · exact absurd h1 hq
        · exact h1
      have hres := ih _ p pid hr hstep
      unfold deliverToWaiters at hres
      rw [hres]

theorem deliver_all_dead (b : Nat) (l : List Pid) :
    ∀ (m : Machine), (∀ pid ∈ l, m.getProcess pid = none) →
      deliverToWaiters b l m = m := by
  induction l with
  | nil => intro m _; rfl
  | cons q rest ih =>
    intro m h
    unfold deliverToWaiters
    rw [List.foldl_cons]
    have hq : m.getProcess q = none := h q (List.mem_cons_self _ _)
    have hstep : (if (m.getProcess q).isSome then
        m.updateProcess q (fun p => p.resumeOnSyscall b) else m) = m := by
      rw [hq]
      rfl
    rw [hstep]
    exact ih m (fun pid hp => h pid (List.mem_cons_of_mem _ hp))

theorem deliver_procs_length (b : Nat) (l : List Pid) :
    ∀ (m : Machine), (deliverToWaiters b l m).procs.length = m.procs.length := by
  induction l with
  | nil => intro m; rfl
  | cons q rest ih =>
    intro m
    unfold deliverToWaiters
    rw [List.foldl_cons]
    have hres := ih (if (m.getProcess q).isSome then
        m.updateProcess q (fun p => p.resumeOnSyscall b) else m)
    unfold deliverToWaiters at hres
    rw [hres]
    by_cases hq : (m.getProcess q).isSome
    · rw [if_pos hq]
      exact List.length_map _ _
    · rw [if_neg hq]

theorem queueBack_procs_of_energySaver (m : Machine)
    (h : m.isCurrentProcessEnergySaver = true) :
    (m.queueCurrentProcessBack.1).procs = m.procs := by
  unfold Machine.queueCurrentProcessBack Machine.updateCurrent
  by_cases hc : m.current = NEVER_PID
  · rw [if_pos hc]
  · rw [if_neg hc]
    rcases hlc : m.getProcess m.current with _ | q
    · show m.procs.map _ = m.procs
      have hnone : ∀ p ∈ m.procs, p.pid ≠ m.current := by
        intro p hp he
        have hfind := List.find?_eq_none.mp hlc p hp
        simp [he] at hfind
      calc m.procs.map (fun p => if p.pid = m.current then
              { p with pc := m.sepc, inKernelMode := m.retKernelMode,
                       trapFrame := m.trapFrame } else p)
          = m.procs.map id := List.map_congr_left (fun a ha => if_neg (hnone a ha))
        _ = m.procs := List.map_id m.procs
    · exfalso
      unfold Machine.isCurrentProcessEnergySaver Machine.currentProcess at h
      rw [if_neg hc, hlc] at h
      have hq : q.pid = m.current := getProcess_some_pid m m.current q hlc
      simp only [Option.getD_some] at h
      rw [hq] at h
      exact hc (by simpa using h)

theorem schedule_cases (M : Machine) (hne : M.procs ≠ []) :
    (∃ m2, M.schedule = ScheduleResult.installed m2) ∨
    (∃ m2, M.schedule = ScheduleResult.idle m2) := by
  have hlen : (M.queueCurrentProcessBack.1).procs.length = M.procs.length :=
    updateCurrent_procs_length M _
  have hqne : (M.queueCurrentProcessBack.1).procs ≠ [] := by
    intro he
    rw [he] at hlen
    exact hne (List.eq_nil_of_length_eq_zero hlen.symm)
  unfold Machine.schedule
  rw [if_neg (by simp [List.isEmpty_iff, hqne])]
  rcases hnr : nextRunnable (M.queueCurrentProcessBack.1).procs
      M.queueCurrentProcessBack.2 with _ | p
  · exact Or.inr ⟨_, rfl⟩
  · exact Or.inl ⟨_, rfl⟩

theorem schedule_installed_frames (M : Machine)
    (hs : M.isCurrentProcessEnergySaver = true) (m2 : Machine)
    (h : M.schedule = ScheduleResult.installed m2) :
    ∀ pid p, M.getProcess pid = some p →
      ∃ p1, m2.getProcess pid = some p1 ∧ p1.trapFrame = p.trapFrame := by
  unfold Machine.schedule at h
  split at h
  · cases h
  · split at h
    · rename_i ps hnr
      rw [ScheduleResult.installed.injEq] at h
      subst h
      intro pid p hp
      have hqb : (M.queueCurrentProcessBack.1).procs = M.procs :=
        queueBack_procs_of_energySaver M hs
      have hp2 : M.procs.find? (fun x => x.pid == pid) = some p := hp
      refine ⟨if p.pid = ps.pid then { p with state := ProcState.Running } else p,
        ?_, ?_⟩
      · show ((M.queueCurrentProcessBack.1).procs.map (fun q =>
          if q.pid = ps.pid then { q with state := ProcState.Running } else q)).find?
            (fun x => x.pid == pid) = _
        rw [hqb, find_map_if M.procs ps.pid
            (fun q => { q with state := ProcState.Running }) (fun x => rfl) pid,
          hp2, Option.map_some']
      · by_cases hps : p.pid = ps.pid
        · rw [if_pos hps]
        · rw [if_neg hps]
    · cases h

theorem schedule_idle_procs (M : Machine) (m2 : Machine)
    (h : M.schedule = ScheduleResult.idle m2) :
    m2.procs = (M.queueCurrentProcessBack.1).procs := by
  unfold Machine.schedule at h
  split at h
  · cases h
  · split at h
    · cases h
    · rw [ScheduleResult.idle.injEq] at h
      subst h
      rfl

theorem proj_map_setRunning (l : List Process) (ps : Pid) :
    (l.map (fun q => if q.pid = ps then { q with state := ProcState.Running } else q)).map
        (fun p => (p.pid, p.trapFrame)) =
      l.map (fun p => (p.pid, p.trapFrame)) := by
  rw [List.map_map]
  refine List.map_congr_left ?_
  intro a _
  by_cases h : a.pid = ps
  · simp [Function.comp, h]
  · simp [Function.comp, h]

theorem schedule_installed_procs_proj (M : Machine)
    (hs : M.isCurrentProcessEnergySaver = true) (m2 : Machine)
    (h : M.schedule = ScheduleResult.installed m2) :
    m2.procs.map (fun p => (p.pid, p.trapFrame)) =
      M.procs.map (fun p => (p.pid, p.trapFrame)) := by
  unfold Machine.schedule at h
  split at h
  · cases h
  · split at h
    · rename_i ps hnr
      rw [ScheduleResult.installed.injEq] at h
      subst h
      show ((M.queueCurrentProcessBack.1).procs.map _).map _ = _
      rw [queueBack_procs_of_energySaver M hs, proj_map_setRunning]
    · cases h

theorem timerAdjust_getProcess (M : Machine) (pid : Pid) :
    (if M.timer = TimerState.disabled then { M with timer := TimerState.armed 0 }
     else M).getProcess pid = M.getProcess pid := by
  split
  · rfl
  · rfl

theorem timerAdjust_procs (M : Machine) :
    (if M.timer = TimerState.disabled then { M with timer := TimerState.armed 0 }
     else M).procs = M.procs := by
  split
  · rfl
  · rfl

/-- Push with at least one registered waiter and a non-empty process table:
the result clears the wakeup set, keeps the FIFO unchanged, and the final
machine is the delivered machine, possibly rescheduled (installed or idle)
and with the timer re-enabled. -/
theorem pushStdin_notified (k : Kernel) (b : Nat) (hq : k.stdin.wakeupQueue ≠ [])
    (hne : k.mach.procs ≠ []) :
    ∃ M3, (k.pushStdin b =
      some { k with
        mach := if M3.timer = TimerState.disabled
                then { M3 with timer := TimerState.armed 0 } else M3,
        stdin := { k.stdin with wakeupQueue := [] } }) ∧
      (M3 = deliverToWaiters b k.stdin.wakeupQueue k.mach ∨
       ((deliverToWaiters b k.stdin.wakeupQueue k.mach).isCurrentProcessEnergySaver
           = true ∧
         (deliverToWaiters b k.stdin.wakeupQueue k.mach).schedule =
           ScheduleResult.installed M3) ∨
       ((deliverToWaiters b k.stdin.wakeupQueue k.mach).isCurrentProcessEnergySaver
           = true ∧
         (deliverToWaiters b k.stdin.wakeupQueue k.mach).schedule =
           ScheduleResult.idle M3)) := by
  have hnot : k.stdin.wakeupQueue.isEmpty = false := by
    cases hqq : k.stdin.wakeupQueue
    · exact absurd hqq hq
    · rfl
  have hM1ne : (deliverToWaiters b k.stdin.wakeupQueue k.mach).procs ≠ [] := by
    intro he
    have hlen := deliver_procs_length b k.stdin.wakeupQueue k.mach
    rw [he] at hlen
    exact hne (List.eq_nil_of_length_eq_zero hlen.symm)
  by_cases hs : (deliverToWaiters b k.stdin.wakeupQueue k.mach).isCurrentProcessEnergySaver
      = true
  · rcases schedule_cases _ hM1ne with ⟨m2, hm2⟩ | ⟨m2, hm2⟩
    · refine ⟨m2, ?_, Or.inr (Or.inl ⟨hs, hm2⟩)⟩
      simp [Kernel.pushStdin, hnot, hs, hm2]
    · refine ⟨m2, ?_, Or.inr (Or.inr ⟨hs, hm2⟩)⟩
      simp [Kernel.pushStdin, hnot, hs, hm2]
  · refine ⟨deliverToWaiters b k.stdin.wakeupQueue k.mach, ?_, Or.inl rfl⟩
    simp [Kernel.pushStdin, hnot, hs]

/-- Push with no registered waiter appends the byte to the FIFO and leaves
the machine untouched. -/
theorem pushStdin_no_waiters (k : Kernel) (b : Nat) (h : k.stdin.wakeupQueue = []) :
    k.pushStdin b =
      some { k with stdin := { data := k.stdin.data ++ [b], wakeupQueue := [] } } := by
  simp [Kernel.pushStdin, h, deliverToWaiters]

theorem pushAll_no_waiters (bs : List Nat) :
    ∀ (k : Kernel), k.stdin.wakeupQueue = [] →
      ∃ k1, k.pushAll bs = some k1 ∧ k1.stdin.data = k.stdin.data ++ bs ∧
        k1.stdin.wakeupQueue = [] := by
  induction bs with
  | nil =>
    intro k h
    exact ⟨k, rfl, by simp, h⟩
  | cons b rest ih =>
    intro k h
    unfold Kernel.pushAll
    rw [pushStdin_no_waiters k b h]
    obtain ⟨k1, hk1, hdata, hw⟩ :=
      ih { k with stdin := { data := k.stdin.data ++ [b], wakeupQueue := [] } } rfl
    refine ⟨k1, hk1, ?_, hw⟩
    rw [hdata]
    simp

theorem getProcess_eq_of_procs (m1 m2 : Machine) (h : m1.procs = m2.procs)
    (pid : Pid) : m1.getProcess pid = m2.getProcess pid := by
  unfold Machine.getProcess
  rw [h]

/-! ### Claims C2 and C10: the stdin push path -/

/-- Claim C2: for every byte pushed into the stdin buffer, if the wakeup
set is non-empty (and the kernel is live: the process table is non-empty,
which holds whenever user code can still run), the byte is delivered to
every registered waiter still present in the process table — the same byte
is written into each of their saved `a0` slots (broadcast) — the wakeup
set is cleared and the byte is not appended to the FIFO; if the wakeup set
is empty, the byte is appended to the FIFO and the machine is untouched;
and bytes pushed with no waiters pop out of the FIFO in arrival order. -/
theorem c2_stdin_push_broadcast_and_fifo (k : Kernel) (b : Nat) :
    (k.stdin.wakeupQueue ≠ [] → k.mach.procs ≠ [] →
      ∃ k1, k.pushStdin b = some k1 ∧
        k1.stdin.wakeupQueue = [] ∧
        k1.stdin.data = k.stdin.data ∧
        (∀ pid p, pid ∈ k.stdin.wakeupQueue → k.mach.getProcess pid = some p →
          ∃ p1, k1.mach.getProcess pid = some p1 ∧
            p1.trapFrame = p.trapFrame.set 10 b)) ∧
    (k.stdin.wakeupQueue = [] →
      ∃ k1, k.pushStdin b = some k1 ∧ k1.mach = k.mach ∧
        k1.stdin.wakeupQueue = [] ∧ k1.stdin.data = k.stdin.data ++ [b]) ∧
    (∀ bs, k.stdin.wakeupQueue = [] →
      ∃ k1, k.pushAll bs = some k1 ∧ k1.stdin.data = k.stdin.data ++ bs ∧
        k1.stdin.wakeupQueue = []) ∧
    (∀ x xs, k.stdin.data = x :: xs →
      k.stdin.pop.1 = some x ∧ k.stdin.pop.2.data = xs) := by
  refine ⟨?_, ?_, fun bs h => pushAll_no_waiters bs k h, ?_⟩
  · intro hq hne
    obtain ⟨M3, heq, hd⟩ := pushStdin_notified k b hq hne
    refine ⟨_, heq, rfl, rfl, ?_⟩
    intro pid p hmem hp
    have hgp : ∀ pid2, ({ k with
        mach := if M3.timer = TimerState.disabled
                then { M3 with timer := TimerState.armed 0 } else M3,
        stdin := { k.stdin with wakeupQueue := [] } } : Kernel).mach.getProcess pid2 =
        M3.getProcess pid2 :=
      fun pid2 => timerAdjust_getProcess M3 pid2
    have hM1 : (deliverToWaiters b k.stdin.wakeupQueue k.mach).getProcess pid =
        some (p.resumeOnSyscall b) := deliver_mem b _ k.mach p pid hmem hp
    rcases hd with rfl | ⟨hs, hd⟩ | ⟨hs, hd⟩
    · refine ⟨p.resumeOnSyscall b, ?_, rfl⟩
      rw [hgp]
      exact hM1
    · obtain ⟨p1, hp1, hf⟩ :=
        schedule_installed_frames _ hs M3 hd pid (p.resumeOnSyscall b) hM1
      refine ⟨p1, ?_, (by rw [hf]; rfl)⟩
      rw [hgp]
      exact hp1
    · have hprocs : M3.procs = (deliverToWaiters b k.stdin.wakeupQueue k.mach).procs := by
        rw [schedule_idle_procs _ _ hd, queueBack_procs_of_energySaver _ hs]
      refine ⟨p.resumeOnSyscall b, ?_, rfl⟩
      rw [hgp, getProcess_eq_of_procs M3
        (deliverToWaiters b k.stdin.wakeupQueue k.mach) hprocs pid]
      exact hM1
  · intro h
    exact ⟨_, pushStdin_no_waiters k b h, rfl, rfl, rfl⟩
  · intro x xs h
    unfold StdinBuffer.pop
    rw [h]
    exact ⟨rfl, rfl⟩

/-- A kernel with one registered (live) waiter, pid 1. -/
def stdinKernel : Kernel :=
  { mach := sampleMachine, stdin := { data := [], wakeupQueue := [1] },
    programs := [], nextPid := 3, openPorts := [], mmapNext := 0 }

/-- A kernel whose only registered waiter, pid 9, is dead. -/
def stdinDeadKernel : Kernel :=
  { mach := sampleMachine, stdin := { data := [7], wakeupQueue := [9] },
    programs := [], nextPid := 3, openPorts := [], mmapNext := 0 }

/-- Claim C2, witness: pushing byte 65 with pid 1 registered delivers it
into pid 1's saved `a0` and clears the wakeup set. -/
theorem c2_stdin_push_witness :
    ∃ k1, stdinKernel.pushStdin 65 = some k1 ∧
      k1.stdin.wakeupQueue = [] ∧
      k1.stdin.data = stdinKernel.stdin.data ∧
      (∀ pid p, pid ∈ stdinKernel.stdin.wakeupQueue →
        stdinKernel.mach.getProcess pid = some p →
        ∃ p1, k1.mach.getProcess pid = some p1 ∧
          p1.trapFrame = p.trapFrame.set 10 65) :=
  (c2_stdin_push_broadcast_and_fifo stdinKernel 65).1 (by decide) (by decide)

/-- Claim C10: pushing a byte while the wakeup set is non-empty but none
of the registered pids is alive does not panic: the dead pids are skipped,
the wakeup set is cleared, and the byte is neither delivered to any
process (every pid keeps its trap frame) nor appended to the FIFO — it is
silently dropped.  The process table is assumed non-empty, which holds in
any live system (the kernel shuts down as soon as the last process dies,
before any further push). -/
theorem c10_push_dead_waiters (k : Kernel) (b : Nat)
    (hq : k.stdin.wakeupQueue ≠ [])
    (hdead : ∀ pid ∈ k.stdin.wakeupQueue, k.mach.getProcess pid = none)
    (hne : k.mach.procs ≠ []) :
    ∃ k1, k.pushStdin b = some k1 ∧
      k1.stdin.data = k.stdin.data ∧
      k1.stdin.wakeupQueue = [] ∧
      k1.mach.procs.map (fun p => (p.pid, p.trapFrame)) =
        k.mach.procs.map (fun p => (p.pid, p.trapFrame)) := by
  obtain ⟨M3, heq, hd⟩ := pushStdin_notified k b hq hne
  have hM1 : deliverToWaiters b k.stdin.wakeupQueue k.mach = k.mach :=
    deliver_all_dead b _ k.mach hdead
  refine ⟨_, heq, rfl, rfl, ?_⟩
  have hproj : ({ k with
      mach := if M3.timer = TimerState.disabled
              then { M3 with timer := TimerState.armed 0 } else M3,
      stdin := { k.stdin with wakeupQueue := [] } } : Kernel).mach.procs =
      M3.procs := timerAdjust_procs M3
  rw [hproj]
  rcases hd with rfl | ⟨hs, hd⟩ | ⟨hs, hd⟩
  · rw [hM1]
  · rw [hM1] at hs hd
    exact schedule_installed_procs_proj k.mach hs M3 hd
  · have hidle := schedule_idle_procs _ _ hd
    rw [hidle, queueBack_procs_of_energySaver _ hs, hM1]

/-- Claim C10, witness: byte 65 pushed while only the dead pid 9 is
registered is dropped without touching any process. -/
theorem c10_push_dead_waiters_witness :
    ∃ k1, stdinDeadKernel.pushStdin 65 = some k1 ∧
      k1.stdin.data = stdinDeadKernel.stdin.data ∧
      k1.stdin.wakeupQueue = [] ∧
      k1.mach.procs.map (fun p => (p.pid, p.trapFrame)) =
        stdinDeadKernel.mach.procs.map (fun p => (p.pid, p.trapFrame)) :=
  c10_push_dead_waiters stdinDeadKernel 65 (by decide) (by decide) (by decide)

end Yaos
